import Mathlib

/-!
# GIViewer: the image-set navigator, the zoom arithmetic and the crop tracker

A shallow embedding of `src/giviewer.cpp`.  Every member function of the class
`GIViewer` that touches the viewer's own fields becomes a function on the record
`GIViewer` below; the toolkit is represented by what the viewer hands to it.

Conventions of the embedding (x86-64 Linux, the platform the program targets):

* `int` is a 32-bit two's-complement integer: the result of `+` and `-` on `int`s is
  reduced with `wrap_int`.  `size_t` is a 64-bit unsigned integer: arithmetic on it is
  reduced modulo `SIZE_MOD`.  The conversions between the two are `to_size_t` and
  `to_int`.
* `double` is IEEE 754 binary64 (`Double`): a finite value is the rational it
  denotes, and every product, quotient and decimal literal is rounded to the nearest
  `double`, ties to even, with overflow to an infinity (`Double.round`).  The
  coordinates of an event, which the handlers only convert, are rationals.
* `std::string` is `String`, one `Char` per `char`; `size()` is `String.length`.
* A handler returns `none` when the run has no defined continuation: an integer
  modulo by zero, or `operator[]` outside the vector.
* `opendir`/`readdir` are represented by their outcome: `none` when `opendir` returns
  `NULL`, otherwise the sequence of `d_name`s that `readdir` yields.
* `gdk_pixbuf_new_from_file` is a parameter: it gives `none` for `NULL`.
* Calls that only ask the toolkit to redraw (`gtk_widget_queue_draw`), release an
  object (`g_object_unref`) or print on `std::cerr` leave no trace in the record.
* The C++ standard leaves `int` overflow and the conversion of an out-of-range or
  non-finite `double` undefined; the embedding fixes the outcome of the compiled
  program, and every statement below whose conclusion could depend on it carries the
  range as a hypothesis or exhibits the value.
-/

/-! ## Machine integers -/

/-- Largest value of an `int`. -/
def INT_MAX : Int := 2147483647

/-- Smallest value of an `int`. -/
def INT_MIN : Int := -2147483648

/-- Number of values of a `size_t`. -/
def SIZE_MOD : Nat := 18446744073709551616

/-- Value stored by `int` arithmetic whose mathematical result is `z`. -/
def wrap_int (z : Int) : Int := (z + 2147483648) % 4294967296 - 2147483648

/-- Conversion of an `int` to `size_t`. -/
def to_size_t (z : Int) : Nat := (z % (SIZE_MOD : Int)).toNat

/-- Conversion of a `size_t` to `int`. -/
def to_int (n : Nat) : Int := wrap_int (n : Int)

/-- Conversion `static_cast<int>(d)` of a finite `double` of value `d`: the
fractional part is discarded (truncation toward zero).  When the truncated value is
not an `int` the conversion instruction of the platform produces `INT_MIN`. -/
def static_cast_int (d : ℚ) : Int :=
  let t : Int := if 0 ≤ d then ⌊d⌋ else ⌈d⌉
  if INT_MIN ≤ t ∧ t ≤ INT_MAX then t else INT_MIN

/-! ## Doubles -/

/-- Value of a `double` (IEEE 754 binary64): a finite value, written as the rational
it denotes, an infinity with its sign, or a NaN.  Zero carries no sign: the viewer
never divides by a zero that could be negative. -/
inductive Double where
  | finite (value : ℚ)
  | infinite (negative : Bool)
  | nan
deriving DecidableEq

/-- Nearest integer, a tie going to the even one. -/
def round_half_even (x : ℚ) : Int :=
  if x - ⌊x⌋ < 1 / 2 then ⌊x⌋
  else if 1 / 2 < x - ⌊x⌋ then ⌊x⌋ + 1
  else if ⌊x⌋ % 2 = 0 then ⌊x⌋ else ⌊x⌋ + 1

/-- Exponent of the spacing of the doubles around `q`: 52 below the binary exponent
of `q`, and that of the subnormal numbers below 2^-1022. -/
def ulp_exponent (q : ℚ) : Int := max (Int.log 2 |q|) (-1022) - 52

/-- Rounding of the exact result of an operation to a `double`: to the nearest
multiple of the spacing, a tie to the even multiple, and to an infinity when the
rounded magnitude reaches 2^1024. -/
def Double.round (q : ℚ) : Double :=
  if (2 : ℚ) ^ (1024 : ℕ)
      ≤ |(round_half_even (q / 2 ^ ulp_exponent q) : ℚ) * 2 ^ ulp_exponent q|
  then Double.infinite (decide (q < 0))
  else Double.finite ((round_half_even (q / 2 ^ ulp_exponent q) : ℚ) * 2 ^ ulp_exponent q)

/-- Product of two `double`s. -/
def Double.mul : Double → Double → Double
  | Double.finite a, Double.finite b => Double.round (a * b)
  | Double.finite a, Double.infinite s =>
    if a = 0 then Double.nan else Double.infinite (xor s (decide (a < 0)))
  | Double.infinite s, Double.finite b =>
    if b = 0 then Double.nan else Double.infinite (xor s (decide (b < 0)))
  | Double.infinite s, Double.infinite t => Double.infinite (xor s t)
  | Double.nan, _ => Double.nan
  | _, Double.nan => Double.nan

/-- Quotient of two `double`s. -/
def Double.div : Double → Double → Double
  | Double.finite a, Double.finite b =>
    if b = 0 then (if a = 0 then Double.nan else Double.infinite (decide (a < 0)))
    else Double.round (a / b)
  | Double.finite _, Double.infinite _ => Double.finite 0
  | Double.infinite s, Double.finite b => Double.infinite (xor s (decide (b < 0)))
  | Double.infinite _, Double.infinite _ => Double.nan
  | Double.nan, _ => Double.nan
  | _, Double.nan => Double.nan

instance : Mul Double := ⟨Double.mul⟩

instance : Div Double := ⟨Double.div⟩

/-- A decimal literal denotes the `double` nearest to it. -/
instance : OfScientific Double :=
  ⟨fun mantissa exponentSign decimalExponent =>
    Double.round (OfScientific.ofScientific mantissa exponentSign decimalExponent)⟩

/-- Conversion of an `int` to `double`. -/
def Double.of_int (n : Int) : Double := Double.round (n : ℚ)

/-- Conversion `static_cast<int>(d)` of a `double`: `static_cast_int` on a finite
value; on an infinity or a NaN the conversion instruction of the platform produces
`INT_MIN`. -/
def static_cast_int_double : Double → Int
  | Double.finite value => static_cast_int value
  | Double.infinite _ => INT_MIN
  | Double.nan => INT_MIN

/-! ## Strings -/

/-- Three-way lexicographic comparison of two character sequences. -/
def compare_chars : List Char → List Char → Int
  | [], [] => 0
  | [], _ :: _ => -1
  | _ :: _, [] => 1
  | a :: l, b :: r => if a < b then -1 else if b < a then 1 else compare_chars l r

/-- Member `str.compare(pos, len, s)` of `std::string`: compares the substring of
`str` that starts at `pos` and has at most `len` characters with `s`. -/
def string_compare (str : String) (pos len : Nat) (s : String) : Int :=
  compare_chars ((str.data.drop pos).take len) s.data

/-! ## Toolkit data -/

/-- Decoded image, as far as the viewer looks at it: its two dimensions. -/
structure GdkPixbuf where
  width : Int
  height : Int
deriving DecidableEq

/-- Rectangle of gdk: four `int`s. -/
structure GdkRectangle where
  x : Int
  y : Int
  width : Int
  height : Int
deriving DecidableEq

/-- Content handed to the `image` widget by `gtk_image_set_from_pixbuf`: either
`NULL`, or the result of `gdk_pixbuf_scale_simple(pixbuf, new_width, new_height, _)`. -/
inductive Shown where
  | nothing
  | scaled (pixbuf : GdkPixbuf) (new_width new_height : Int)
deriving DecidableEq

/-- Arguments of the call `cairo_arc(cr, xc, yc, radius, 0, 2 * G_PI)`. -/
structure CairoArc where
  xc : Int
  yc : Int
  radius : Int
deriving DecidableEq

/-- Button event: the fields the handlers read. -/
structure GdkEventButton where
  button : Nat
  state : Nat
  x : ℚ
  y : ℚ

/-- Motion event: the fields the handler reads. -/
structure GdkEventMotion where
  x : ℚ
  y : ℚ

/-- Key event: the fields the handler reads. -/
structure GdkEventKey where
  state : Nat
  keyval : Nat

/-- Scroll directions of gdk. -/
inductive GdkScrollDirection where
  | UP
  | DOWN
  | LEFT
  | RIGHT
  | SMOOTH
deriving DecidableEq

/-- Scroll event: the field the handler reads. -/
structure GdkEventScroll where
  direction : GdkScrollDirection

/-- Constant `GDK_BUTTON_PRIMARY` of gdk. -/
def GDK_BUTTON_PRIMARY : Nat := 1

/-- Constant `GDK_CONTROL_MASK` of gdk (`1 << 2`). -/
def GDK_CONTROL_MASK : Nat := 4

/-- Constant `GDK_KEY_plus` of gdk. -/
def GDK_KEY_plus : Nat := 0x02b

/-- Constant `GDK_KEY_equal` of gdk. -/
def GDK_KEY_equal : Nat := 0x03d

/-- Constant `GDK_KEY_minus` of gdk. -/
def GDK_KEY_minus : Nat := 0x02d

/-! ## The viewer -/

/-- Data members of the class `GIViewer` that the handlers read or write.  `image`
stands for the content of the `GtkImage` widget. -/
structure GIViewer where
  image : Shown
  image_files : List String
  current_image_index : Int
  zoom_factor : Double
  is_cropping : Bool
  crop_area : GdkRectangle

/-- Constructor `GIViewer::GIViewer()`: `current_image_index(0)`, `zoom_factor(1.0)`,
`is_cropping(false)`, an empty vector and an empty image widget.  The constructor
does not initialise `crop_area`; its indeterminate content is the argument. -/
def GIViewer.construct (crop_area : GdkRectangle) : GIViewer :=
  { image := Shown.nothing
    image_files := []
    current_image_index := 0
    zoom_factor := 1.0
    is_cropping := false
    crop_area := crop_area }

/-- Method `GIViewer::resize_image`. -/
def GIViewer.resize_image (viewer : GIViewer) (pixbuf : Option GdkPixbuf) : GIViewer :=
  match pixbuf with
  | some p =>
    let original_width : Int := p.width
    let original_height : Int := p.height
    let new_height : Int :=
      static_cast_int_double (Double.of_int 500 * viewer.zoom_factor)
    let new_width : Int :=
      static_cast_int_double
        (Double.of_int original_width
          * (Double.of_int new_height / Double.of_int original_height))
    { viewer with image := Shown.scaled p new_width new_height }
  | none => viewer

/-- Method `GIViewer::update_image`. -/
def GIViewer.update_image (gdk_pixbuf_new_from_file : String → Option GdkPixbuf)
    (viewer : GIViewer) : Option GIViewer :=
  if !viewer.image_files.isEmpty then
    match viewer.image_files[to_size_t viewer.current_image_index]? with
    | some file => some (viewer.resize_image (gdk_pixbuf_new_from_file file))
    | none => none
  else some viewer

/-- Body of the `readdir` loop of `load_images` for one entry name. -/
def GIViewer.scan_entry (directory : String) (image_files : List String)
    (filename : String) : List String :=
  if filename.length ≥ 4 ∧ string_compare filename (filename.length - 4) 4 ".jpg" = 0 then
    image_files ++ [directory ++ "/" ++ filename]
  else if filename.length ≥ 4
      ∧ string_compare filename (filename.length - 4) 4 ".png" = 0 then
    image_files ++ [directory ++ "/" ++ filename]
  else if filename.length ≥ 5
      ∧ string_compare filename (filename.length - 5) 5 ".jpeg" = 0 then
    image_files ++ [directory ++ "/" ++ filename]
  else image_files

/-- Method `GIViewer::load_images`.  `opendir` is the outcome of the enumeration of
`directory`. -/
def GIViewer.load_images (gdk_pixbuf_new_from_file : String → Option GdkPixbuf)
    (viewer : GIViewer) (directory : String) (opendir : Option (List String)) :
    Option GIViewer :=
  let cleared : GIViewer := { viewer with image_files := [], current_image_index := 0 }
  let scanned : GIViewer :=
    match opendir with
    | some entries =>
      { cleared with
        image_files := entries.foldl (GIViewer.scan_entry directory) cleared.image_files }
    | none => cleared
  if !scanned.image_files.isEmpty then
    scanned.update_image gdk_pixbuf_new_from_file
  else some { scanned with image := Shown.nothing }

/-- Method `GIViewer::start_cropping`. -/
def GIViewer.start_cropping (viewer : GIViewer) (x y : Int) : GIViewer :=
  { viewer with
    is_cropping := true
    crop_area :=
      { x := wrap_int (x - 100), y := wrap_int (y - 100), width := 200, height := 200 } }

/-- Method `GIViewer::update_crop_area`. -/
def GIViewer.update_crop_area (viewer : GIViewer) (x y : Int) : GIViewer :=
  if viewer.is_cropping then
    { viewer with
      crop_area :=
        { viewer.crop_area with x := wrap_int (x - 100), y := wrap_int (y - 100) } }
  else viewer

/-- Method `GIViewer::finish_cropping`. -/
def GIViewer.finish_cropping (viewer : GIViewer) : GIViewer :=
  { viewer with is_cropping := false }

/-- Handler `GIViewer::on_button_press`, with the `gboolean` it returns. -/
def GIViewer.on_button_press (viewer : GIViewer) (event : GdkEventButton) :
    GIViewer × Bool :=
  if event.button = GDK_BUTTON_PRIMARY ∧ event.state &&& GDK_CONTROL_MASK ≠ 0 then
    (viewer.start_cropping (static_cast_int event.x) (static_cast_int event.y), true)
  else (viewer, true)

/-- Handler `GIViewer::on_button_release`, with the `gboolean` it returns. -/
def GIViewer.on_button_release (viewer : GIViewer) (event : GdkEventButton) :
    GIViewer × Bool :=
  if event.button = GDK_BUTTON_PRIMARY ∧ viewer.is_cropping = true then
    (viewer.finish_cropping, true)
  else (viewer, true)

/-- Handler `GIViewer::on_motion_notify`, with the `gboolean` it returns. -/
def GIViewer.on_motion_notify (viewer : GIViewer) (event : GdkEventMotion) :
    GIViewer × Bool :=
  if viewer.is_cropping then
    (viewer.update_crop_area (static_cast_int event.x) (static_cast_int event.y), true)
  else (viewer, true)

/-- Handler `GIViewer::on_draw`: the arc it fills, if any (it returns `FALSE`). -/
def GIViewer.on_draw (viewer : GIViewer) : Option CairoArc :=
  if viewer.is_cropping then
    some { xc := wrap_int (viewer.crop_area.x + 100)
           yc := wrap_int (viewer.crop_area.y + 100)
           radius := 100 }
  else none

/-- Handler `GIViewer::on_next_clicked`. -/
def GIViewer.on_next_clicked (gdk_pixbuf_new_from_file : String → Option GdkPixbuf)
    (viewer : GIViewer) : Option GIViewer :=
  let size : Nat := viewer.image_files.length
  if size = 0 then none
  else
    let sum : Int := wrap_int (viewer.current_image_index + 1)
    let index : Nat := to_size_t sum % size
    GIViewer.update_image gdk_pixbuf_new_from_file
      { viewer with current_image_index := to_int index }

/-- Handler `GIViewer::on_prev_clicked`. -/
def GIViewer.on_prev_clicked (gdk_pixbuf_new_from_file : String → Option GdkPixbuf)
    (viewer : GIViewer) : Option GIViewer :=
  let size : Nat := viewer.image_files.length
  if size = 0 then none
  else
    let difference : Int := wrap_int (viewer.current_image_index - 1)
    let sum : Nat := (to_size_t difference + size) % SIZE_MOD
    let index : Nat := sum % size
    GIViewer.update_image gdk_pixbuf_new_from_file
      { viewer with current_image_index := to_int index }

/-- Handler `GIViewer::on_key_press`, with the `gboolean` it returns. -/
def GIViewer.on_key_press (gdk_pixbuf_new_from_file : String → Option GdkPixbuf)
    (viewer : GIViewer) (event : GdkEventKey) : Option (GIViewer × Bool) :=
  if event.state &&& GDK_CONTROL_MASK ≠ 0 then
    if event.keyval = GDK_KEY_plus ∨ event.keyval = GDK_KEY_equal then
      (GIViewer.update_image gdk_pixbuf_new_from_file
        { viewer with zoom_factor := viewer.zoom_factor * 1.1 }).map (fun v => (v, true))
    else if event.keyval = GDK_KEY_minus then
      (GIViewer.update_image gdk_pixbuf_new_from_file
        { viewer with zoom_factor := viewer.zoom_factor / 1.1 }).map (fun v => (v, true))
    else some (viewer, false)
  else some (viewer, false)

/-- Handler `GIViewer::on_scroll`, with the `gboolean` it returns. -/
def GIViewer.on_scroll (gdk_pixbuf_new_from_file : String → Option GdkPixbuf)
    (viewer : GIViewer) (event : GdkEventScroll) : Option (GIViewer × Bool) :=
  let zoomed : GIViewer :=
    if event.direction = GdkScrollDirection.UP then
      { viewer with zoom_factor := viewer.zoom_factor * 1.1 }
    else if event.direction = GdkScrollDirection.DOWN then
      { viewer with zoom_factor := viewer.zoom_factor / 1.1 }
    else viewer
  (GIViewer.update_image gdk_pixbuf_new_from_file zoomed).map (fun v => (v, true))

/-! ## Definitions used to state the properties -/

/-- Name ends in ".jpg", ".png" or ".jpeg", compared character by character. -/
def has_image_suffix (name : String) : Bool :=
  decide (".jpg".data <:+ name.data) || decide (".png".data <:+ name.data)
    || decide (".jpeg".data <:+ name.data)

/-- Predicate on the navigator: index 0 with an empty list, or an index inside a
non-empty list. -/
def GIViewer.index_valid (viewer : GIViewer) : Prop :=
  (viewer.image_files = [] ∧ viewer.current_image_index = 0)
  ∨ (viewer.image_files ≠ [] ∧ 0 ≤ viewer.current_image_index
      ∧ viewer.current_image_index < viewer.image_files.length)

instance (viewer : GIViewer) : Decidable viewer.index_valid := by
  unfold GIViewer.index_valid
  infer_instance

/-- Result of `count` clicks on the next button in a row. -/
def GIViewer.repeat_next (dec : String → Option GdkPixbuf) :
    Nat → GIViewer → Option GIViewer
  | 0, viewer => some viewer
  | count + 1, viewer => (viewer.on_next_clicked dec).bind (GIViewer.repeat_next dec count)

/-- State with 2^31 + 1 files whose current index is the largest `int`. -/
def GIViewer.huge_folder : GIViewer :=
  { image := Shown.nothing
    image_files := List.replicate 2147483649 "a.png"
    current_image_index := 2147483647
    zoom_factor := 1.0
    is_cropping := false
    crop_area := { x := 0, y := 0, width := 0, height := 0 } }

/-- State with 2^31 + 1 files, showing the first. -/
def GIViewer.huge_folder_start : GIViewer :=
  { image := Shown.nothing
    image_files := List.replicate 2147483649 "a.png"
    current_image_index := 0
    zoom_factor := 1.0
    is_cropping := false
    crop_area := { x := 0, y := 0, width := 0, height := 0 } }

/-- State after the constructor with the zoom factor replaced by 15 * 2^1020. -/
def GIViewer.far_zoomed : GIViewer :=
  { GIViewer.construct { x := 0, y := 0, width := 0, height := 0 } with
    zoom_factor := Double.finite (15 * 2 ^ (1020 : ℕ)) }

/-- State after the constructor with the zoom factor replaced by 5 * 2^-1074, a
subnormal `double`. -/
def GIViewer.near_zero_zoomed : GIViewer :=
  { GIViewer.construct { x := 0, y := 0, width := 0, height := 0 } with
    zoom_factor := Double.finite (5 * 2 ^ (-1074 : Int)) }

/-- Result of `count` scroll-up events in a row. -/
def GIViewer.repeat_scroll_up (dec : String → Option GdkPixbuf) :
    Nat → GIViewer → Option GIViewer
  | 0, viewer => some viewer
  | count + 1, viewer =>
    (GIViewer.repeat_scroll_up dec count viewer).bind
      (fun w => (w.on_scroll dec { direction := GdkScrollDirection.UP }).map Prod.fst)

/-- State with three files, showing the first. -/
def GIViewer.three_files : GIViewer :=
  { image := Shown.nothing
    image_files := ["d/a.jpg", "d/b.png", "d/c.jpeg"]
    current_image_index := 0
    zoom_factor := 1.0
    is_cropping := false
    crop_area := { x := 0, y := 0, width := 0, height := 0 } }

/-- Decoder that reads every file as a 1000 by 500 image. -/
def sample_decoder : String → Option GdkPixbuf :=
  fun _ => some { width := 1000, height := 500 }

/-- Press of the primary button at (150, 150) with the control modifier held. -/
def example_press : GdkEventButton :=
  { button := 1, state := 4, x := 150, y := 150 }

/-- Pointer motion to (200, 180). -/
def example_motion : GdkEventMotion :=
  { x := 200, y := 180 }

/-- Release of the primary button at (200, 180). -/
def example_release : GdkEventButton :=
  { button := 1, state := 260, x := 200, y := 180 }

/-- Key press of `+` with the control modifier held. -/
def example_ctrl_plus : GdkEventKey :=
  { state := 4, keyval := 0x02b }

/-- Key press of `-` with the control modifier held. -/
def example_ctrl_minus : GdkEventKey :=
  { state := 4, keyval := 0x02d }

/-! ## Facts about the machine integers -/

theorem wrap_int_of_int {z : Int} (h0 : -2147483648 ≤ z) (h1 : z ≤ 2147483647) :
    wrap_int z = z := by
  unfold wrap_int
  omega

theorem wrap_int_range (z : Int) : -2147483648 ≤ wrap_int z ∧ wrap_int z ≤ 2147483647 := by
  unfold wrap_int
  omega

theorem to_size_t_of_nat (n : Nat) (h : n < 18446744073709551616) :
    to_size_t (n : Int) = n := by
  unfold to_size_t SIZE_MOD
  omega

theorem to_int_of_small (n : Nat) (h : n ≤ 2147483647) : to_int n = (n : Int) := by
  unfold to_int
  exact wrap_int_of_int (by omega) (by omega)

theorem static_cast_int_intCast (z : Int) (h0 : -2147483648 ≤ z) (h1 : z ≤ 2147483647) :
    static_cast_int (z : ℚ) = z := by
  unfold static_cast_int INT_MIN INT_MAX
  simp only [Int.floor_intCast, Int.ceil_intCast, ite_self]
  rw [if_pos ⟨h0, h1⟩]

/-! ## Facts about the rounding -/

theorem round_half_even_bounds (x : ℚ) :
    ⌊x⌋ ≤ round_half_even x ∧ round_half_even x ≤ ⌊x⌋ + 1 := by
  unfold round_half_even
  split_ifs <;> omega

theorem round_half_even_error (x : ℚ) : |(round_half_even x : ℚ) - x| ≤ 1 / 2 := by
  have hfl : (⌊x⌋ : ℚ) ≤ x := Int.floor_le x
  have hlt : x < (⌊x⌋ : ℚ) + 1 := Int.lt_floor_add_one x
  unfold round_half_even
  rw [abs_le]
  split_ifs with h1 h2 h3
  · constructor <;> linarith
  · push_cast
    constructor <;> linarith
  · constructor <;> linarith
  · push_cast
    constructor <;> linarith

theorem round_half_even_intCast (n : Int) : round_half_even (n : ℚ) = n := by
  unfold round_half_even
  simp

theorem round_half_even_ge (x : ℚ) (n : Int) (h : (n : ℚ) ≤ x) : n ≤ round_half_even x :=
  le_trans (Int.le_floor.mpr h) (round_half_even_bounds x).1

theorem round_half_even_le (x : ℚ) (n : Int) (h : x ≤ (n : ℚ)) : round_half_even x ≤ n := by
  rcases eq_or_lt_of_le h with heq | hlt
  · rw [heq, round_half_even_intCast]
  · have hfloor : ⌊x⌋ < n := Int.floor_lt.mpr hlt
    have hb := (round_half_even_bounds x).2
    omega

theorem round_half_even_eq (x : ℚ) (m : Int) (h1 : (m : ℚ) - 1 / 2 < x)
    (h2 : x < (m : ℚ) + 1 / 2) : round_half_even x = m := by
  have herr := abs_le.mp (round_half_even_error x)
  have hlo : ((m - 1 : Int) : ℚ) < (round_half_even x : ℚ) := by
    push_cast
    linarith [herr.1]
  have hhi : (round_half_even x : ℚ) < ((m + 1 : Int) : ℚ) := by
    push_cast
    linarith [herr.2]
  have hlo' : m - 1 < round_half_even x := by exact_mod_cast hlo
  have hhi' : round_half_even x < m + 1 := by exact_mod_cast hhi
  omega

theorem two_zpow_pos (k : Int) : (0 : ℚ) < 2 ^ k := zpow_pos (by norm_num) k

theorem log_two_spec (a : ℚ) (ha : 0 < a) :
    (2 : ℚ) ^ Int.log 2 a ≤ a ∧ a < (2 : ℚ) ^ (Int.log 2 a + 1) := by
  have h1 := Int.zpow_log_le_self (b := 2) (by norm_num) ha
  have h2 := Int.lt_zpow_succ_log_self (b := 2) (by norm_num) a
  rw [Nat.cast_ofNat] at h1 h2
  exact ⟨h1, h2⟩

theorem log_two_eq (a : ℚ) (e : Int) (hlo : (2 : ℚ) ^ e ≤ a) (hhi : a < (2 : ℚ) ^ (e + 1)) :
    Int.log 2 a = e := by
  have ha : 0 < a := lt_of_lt_of_le (two_zpow_pos e) hlo
  have h1 : e ≤ Int.log 2 a := by
    rw [← Int.zpow_le_iff_le_log (b := 2) (by norm_num) ha, Nat.cast_ofNat]
    exact hlo
  have h2 : Int.log 2 a < e + 1 := by
    rw [← Int.lt_zpow_iff_log_lt (b := 2) (by norm_num) ha, Nat.cast_ofNat]
    exact hhi
  omega

/-- Candidate of the rounding: the nearest multiple of the spacing. -/
theorem round_candidate (q : ℚ) :
    Double.round q
      = if (2 : ℚ) ^ (1024 : ℕ)
            ≤ |(round_half_even (q / 2 ^ ulp_exponent q) : ℚ) * 2 ^ ulp_exponent q|
        then Double.infinite (decide (q < 0))
        else Double.finite
          ((round_half_even (q / 2 ^ ulp_exponent q) : ℚ) * 2 ^ ulp_exponent q) := rfl

theorem candidate_error (q : ℚ) :
    |(round_half_even (q / 2 ^ ulp_exponent q) : ℚ) * 2 ^ ulp_exponent q - q|
      ≤ 2 ^ ulp_exponent q / 2 := by
  have hu := two_zpow_pos (ulp_exponent q)
  have herr := round_half_even_error (q / 2 ^ ulp_exponent q)
  have hq : q = q / 2 ^ ulp_exponent q * 2 ^ ulp_exponent q := by
    field_simp
  have hsplit : (round_half_even (q / 2 ^ ulp_exponent q) : ℚ) * 2 ^ ulp_exponent q - q
      = ((round_half_even (q / 2 ^ ulp_exponent q) : ℚ) - q / 2 ^ ulp_exponent q)
          * 2 ^ ulp_exponent q := by
    rw [sub_mul, ← hq]
  rw [hsplit, abs_mul, abs_of_pos hu]
  calc |(round_half_even (q / 2 ^ ulp_exponent q) : ℚ) - q / 2 ^ ulp_exponent q|
        * 2 ^ ulp_exponent q
      ≤ 1 / 2 * 2 ^ ulp_exponent q := mul_le_mul_of_nonneg_right herr (le_of_lt hu)
    _ = 2 ^ ulp_exponent q / 2 := by ring

/-- In the normal range the spacing is at most 2^-52 times the magnitude. -/
theorem ulp_le (q : ℚ) (hq : (2 : ℚ) ^ (-1022 : Int) ≤ |q|) :
    (2 : ℚ) ^ ulp_exponent q ≤ |q| * 2 ^ (-52 : Int) := by
  have ha : 0 < |q| := lt_of_lt_of_le (two_zpow_pos _) hq
  have hspec := log_two_spec |q| ha
  have hlog : -1022 ≤ Int.log 2 |q| := by
    rw [← Int.zpow_le_iff_le_log (b := 2) (by norm_num) ha, Nat.cast_ofNat]
    exact hq
  unfold ulp_exponent
  rw [max_eq_left hlog, sub_eq_add_neg, zpow_add₀ (by norm_num : (2 : ℚ) ≠ 0)]
  exact mul_le_mul_of_nonneg_right hspec.1 (le_of_lt (two_zpow_pos _))

/-- Relative error of one rounding in the normal range, short of overflow. -/
theorem round_rel_error (q : ℚ) (hlo : (2 : ℚ) ^ (-1022 : Int) ≤ |q|)
    (hhi : |q| ≤ (2 : ℚ) ^ (1023 : ℕ)) :
    ∃ r, Double.round q = Double.finite r ∧ |r - q| ≤ |q| * 2 ^ (-53 : Int) := by
  have herr := candidate_error q
  have hulp := ulp_le q hlo
  have hbound : |(round_half_even (q / 2 ^ ulp_exponent q) : ℚ) * 2 ^ ulp_exponent q - q|
      ≤ |q| * 2 ^ (-53 : Int) := by
    have h53 : |q| * (2 : ℚ) ^ (-53 : Int) = |q| * 2 ^ (-52 : Int) / 2 := by
      rw [show (2 : ℚ) ^ (-53 : Int) = 2 ^ (-52 : Int) / 2 by norm_num]
      ring
    rw [h53]
    exact le_trans herr ((div_le_div_iff_of_pos_right (by norm_num : (0 : ℚ) < 2)).mpr hulp)
  refine ⟨_, ?_, hbound⟩
  rw [round_candidate, if_neg]
  rw [not_le]
  have htri : |(round_half_even (q / 2 ^ ulp_exponent q) : ℚ) * 2 ^ ulp_exponent q|
      ≤ |(round_half_even (q / 2 ^ ulp_exponent q) : ℚ) * 2 ^ ulp_exponent q - q| + |q| := by
    have := abs_add ((round_half_even (q / 2 ^ ulp_exponent q) : ℚ) * 2 ^ ulp_exponent q - q) q
    simpa using this
  have hsmall : |q| * 2 ^ (-53 : Int) ≤ (2 : ℚ) ^ (1023 : ℕ) * 2 ^ (-53 : Int) :=
    mul_le_mul_of_nonneg_right hhi (le_of_lt (two_zpow_pos _))
  have hnum : (2 : ℚ) ^ (1023 : ℕ) * 2 ^ (-53 : Int) + 2 ^ (1023 : ℕ) < 2 ^ (1024 : ℕ) := by
    norm_num
  linarith

theorem ulp_exponent_nonpos (q : ℚ) (hq : |q| < (2 : ℚ) ^ (53 : ℕ)) : ulp_exponent q ≤ 0 := by
  have hlog : Int.log 2 |q| < 53 := by
    rcases eq_or_lt_of_le (abs_nonneg q) with h0 | hpos
    · rw [← h0, Int.log_of_right_le_zero 2 (le_refl (0 : ℚ))]
      norm_num
    · rw [← Int.lt_zpow_iff_log_lt (b := 2) (by norm_num) hpos, Nat.cast_ofNat]
      exact_mod_cast hq
  unfold ulp_exponent
  omega

/-- Below 2^53 a rounding does not cross an integer. -/
theorem double_round_between_ints (q : ℚ) (hq : |q| < (2 : ℚ) ^ (53 : ℕ)) :
    ∃ r, Double.round q = Double.finite r ∧ (⌊q⌋ : ℚ) ≤ r ∧ r ≤ (⌈q⌉ : ℚ) := by
  obtain ⟨j, hj⟩ := Int.exists_eq_neg_ofNat (ulp_exponent_nonpos q hq)
  have hu : (2 : ℚ) ^ ulp_exponent q = ((2 : ℚ) ^ j)⁻¹ := by
    rw [hj, zpow_neg, zpow_natCast]
  have hpow : (0 : ℚ) < (2 : ℚ) ^ j := pow_pos (by norm_num) j
  have hdiv : q / 2 ^ ulp_exponent q = q * 2 ^ j := by
    rw [hu, div_inv_eq_mul]
  have hlow : ((⌊q⌋ * 2 ^ j : Int) : ℚ) ≤ q / 2 ^ ulp_exponent q := by
    rw [hdiv]
    push_cast
    exact mul_le_mul_of_nonneg_right (Int.floor_le q) (le_of_lt hpow)
  have hupp : q / 2 ^ ulp_exponent q ≤ ((⌈q⌉ * 2 ^ j : Int) : ℚ) := by
    rw [hdiv]
    push_cast
    exact mul_le_mul_of_nonneg_right (Int.le_ceil q) (le_of_lt hpow)
  have h1 : ((⌊q⌋ * 2 ^ j : Int) : ℚ)
      ≤ (round_half_even (q / 2 ^ ulp_exponent q) : ℚ) := by
    exact_mod_cast round_half_even_ge _ _ hlow
  have h2 : (round_half_even (q / 2 ^ ulp_exponent q) : ℚ)
      ≤ ((⌈q⌉ * 2 ^ j : Int) : ℚ) := by
    exact_mod_cast round_half_even_le _ _ hupp
  have hr1 : (⌊q⌋ : ℚ)
      ≤ (round_half_even (q / 2 ^ ulp_exponent q) : ℚ) * 2 ^ ulp_exponent q := by
    push_cast at h1
    generalize (round_half_even (q / 2 ^ ulp_exponent q) : ℚ) = mq at h1 ⊢
    rw [hu, ← div_eq_mul_inv, le_div_iff₀ hpow]
    exact h1
  have hr2 : (round_half_even (q / 2 ^ ulp_exponent q) : ℚ) * 2 ^ ulp_exponent q
      ≤ (⌈q⌉ : ℚ) := by
    push_cast at h2
    generalize (round_half_even (q / 2 ^ ulp_exponent q) : ℚ) = mq at h2 ⊢
    rw [hu, ← div_eq_mul_inv, div_le_iff₀ hpow]
    exact h2
  refine ⟨_, ?_, hr1, hr2⟩
  rw [round_candidate, if_neg]
  rw [not_le, abs_lt]
  have hq' := abs_lt.mp hq
  have hfl : -(2 : ℚ) ^ (53 : ℕ) ≤ (⌊q⌋ : ℚ) := by
    have : ((-(2 ^ 53) : Int) : ℚ) ≤ (⌊q⌋ : ℚ) := by
      exact_mod_cast Int.le_floor.mpr (by push_cast; linarith [hq'.1])
    push_cast at this
    exact this
  have hcl : (⌈q⌉ : ℚ) ≤ (2 : ℚ) ^ (53 : ℕ) := by
    have : (⌈q⌉ : ℚ) ≤ (((2 ^ 53) : Int) : ℚ) := by
      exact_mod_cast Int.ceil_le.mpr (by push_cast; linarith [hq'.2])
    push_cast at this
    exact this
  have hbig : (2 : ℚ) ^ (53 : ℕ) < 2 ^ (1024 : ℕ) := by norm_num
  constructor <;> linarith

/-- An integer below 2^53 in magnitude is a `double`. -/
theorem double_round_intCast (n : Int) (hn : |(n : ℚ)| < (2 : ℚ) ^ (53 : ℕ)) :
    Double.round (n : ℚ) = Double.finite (n : ℚ) := by
  obtain ⟨r, hr, h1, h2⟩ := double_round_between_ints (n : ℚ) hn
  rw [Int.floor_intCast] at h1
  rw [Int.ceil_intCast] at h2
  rw [hr, le_antisymm h2 h1]

/-- At 2^1024 and above the rounding overflows. -/
theorem double_round_overflow (q : ℚ) (hq : (2 : ℚ) ^ (1024 : ℕ) ≤ q) :
    Double.round q = Double.infinite false := by
  have hpos : 0 < q := lt_of_lt_of_le (pow_pos (by norm_num) 1024) hq
  have habs : |q| = q := abs_of_pos hpos
  have hspec := log_two_spec q hpos
  have hq' : (2 : ℚ) ^ ((1024 : ℕ) : Int) ≤ q := by
    rw [zpow_natCast]
    exact hq
  have hlog' : ((1024 : ℕ) : Int) ≤ Int.log 2 q := by
    rw [← Int.zpow_le_iff_le_log (b := 2) (by norm_num) hpos, Nat.cast_ofNat]
    exact hq'
  have hlog : (1024 : Int) ≤ Int.log 2 q := by exact_mod_cast hlog'
  have hk : ulp_exponent q = Int.log 2 q - 52 := by
    unfold ulp_exponent
    rw [habs]
    omega
  have hu := two_zpow_pos (ulp_exponent q)
  have hsplit : (2 : ℚ) ^ Int.log 2 q = 2 ^ (52 : ℕ) * 2 ^ ulp_exponent q := by
    rw [hk, ← zpow_natCast, ← zpow_add₀ (by norm_num : (2 : ℚ) ≠ 0)]
    congr 1
    omega
  have hcast : (((2 ^ 52 : Int)) : ℚ) = (2 : ℚ) ^ (52 : ℕ) := by norm_num
  have hge : (((2 ^ 52 : Int)) : ℚ) ≤ q / 2 ^ ulp_exponent q := by
    rw [hcast, le_div_iff₀ hu, ← hsplit]
    exact hspec.1
  have hm : (2 : ℚ) ^ (52 : ℕ) ≤ (round_half_even (q / 2 ^ ulp_exponent q) : ℚ) := by
    rw [← hcast]
    exact_mod_cast round_half_even_ge _ _ hge
  have hr : (2 : ℚ) ^ (1024 : ℕ)
      ≤ (round_half_even (q / 2 ^ ulp_exponent q) : ℚ) * 2 ^ ulp_exponent q := by
    have h1 : (2 : ℚ) ^ Int.log 2 q
        ≤ (round_half_even (q / 2 ^ ulp_exponent q) : ℚ) * 2 ^ ulp_exponent q := by
      rw [hsplit]
      exact mul_le_mul_of_nonneg_right hm (le_of_lt hu)
    have h2 : (2 : ℚ) ^ (1024 : ℕ) ≤ 2 ^ Int.log 2 q := by
      rw [← zpow_natCast]
      exact zpow_le_zpow_right₀ (by norm_num) (by exact_mod_cast hlog)
    exact le_trans h2 h1
  rw [round_candidate, if_pos (le_trans hr (le_abs_self _))]
  simp [not_lt.mpr (le_of_lt hpos)]

/-- Evaluation of a rounding: in the binade of exponent `e`, the result is the
multiple `m` of the spacing nearer than half a spacing. -/
theorem double_round_eq_of_binade (q : ℚ) (e m : Int) (he : -1022 ≤ e) (he2 : e < 1023)
    (hlo : (2 : ℚ) ^ e ≤ q) (hhi : q < (2 : ℚ) ^ (e + 1))
    (h1 : (m : ℚ) - 1 / 2 < q / 2 ^ (e - 52)) (h2 : q / 2 ^ (e - 52) < (m : ℚ) + 1 / 2) :
    Double.round q = Double.finite ((m : ℚ) * 2 ^ (e - 52)) := by
  have hpos : 0 < q := lt_of_lt_of_le (two_zpow_pos e) hlo
  have habs : |q| = q := abs_of_pos hpos
  have hlog := log_two_eq q e hlo hhi
  have hk : ulp_exponent q = e - 52 := by
    unfold ulp_exponent
    rw [habs, hlog]
    omega
  have hm := round_half_even_eq _ m h1 h2
  have hu := two_zpow_pos (e - 52)
  rw [round_candidate, hk, hm, if_neg]
  rw [not_le]
  have hqu : q / 2 ^ (e - 52) < 2 ^ (53 : ℕ) := by
    rw [div_lt_iff₀ hu, ← zpow_natCast, ← zpow_add₀ (by norm_num : (2 : ℚ) ≠ 0)]
    have : ((53 : ℕ) : Int) + (e - 52) = e + 1 := by omega
    rw [this]
    exact hhi
  have hqu0 : 0 < q / 2 ^ (e - 52) := div_pos hpos hu
  have hmlo : (0 : ℚ) ≤ (m : ℚ) := by
    have : (-1 : Int) < m := by
      have : ((-1 : Int) : ℚ) < (m : ℚ) := by push_cast; linarith
      exact_mod_cast this
    exact_mod_cast (by omega : (0 : Int) ≤ m)
  have hmhi : (m : ℚ) ≤ 2 ^ (53 : ℕ) := by
    have : m < 2 ^ 53 + 1 := by
      have : (m : ℚ) < ((2 ^ 53 + 1 : Int) : ℚ) := by push_cast; linarith
      exact_mod_cast this
    exact_mod_cast (by omega : m ≤ 2 ^ 53)
  rw [abs_of_nonneg (mul_nonneg hmlo (le_of_lt hu))]
  have h1024 : (2 : ℚ) ^ (53 : ℕ) * 2 ^ (e - 52) ≤ 2 ^ (1023 : Int) := by
    rw [← zpow_natCast, ← zpow_add₀ (by norm_num : (2 : ℚ) ≠ 0)]
    exact zpow_le_zpow_right₀ (by norm_num) (by omega)
  have hstep : (m : ℚ) * 2 ^ (e - 52) ≤ 2 ^ (53 : ℕ) * 2 ^ (e - 52) :=
    mul_le_mul_of_nonneg_right hmhi (le_of_lt hu)
  have hfin : (2 : ℚ) ^ (1023 : Int) < 2 ^ (1024 : ℕ) := by norm_num
  linarith

/-- Evaluation of a rounding below 2^-1022: the result is the multiple `m` of 2^-1074
nearer than half of it. -/
theorem double_round_subnormal (q : ℚ) (m : Int) (hpos : 0 < q)
    (hsub : q < (2 : ℚ) ^ (-1022 : Int))
    (h1 : ((m : ℚ) - 1 / 2) * 2 ^ (-1074 : Int) < q)
    (h2 : q < ((m : ℚ) + 1 / 2) * 2 ^ (-1074 : Int)) :
    Double.round q = Double.finite ((m : ℚ) * 2 ^ (-1074 : Int)) := by
  have habs : |q| = q := abs_of_pos hpos
  have hlog : Int.log 2 q < -1022 := by
    rw [← Int.lt_zpow_iff_log_lt (b := 2) (by norm_num) hpos, Nat.cast_ofNat]
    exact hsub
  have hk : ulp_exponent q = -1074 := by
    unfold ulp_exponent
    rw [habs]
    omega
  have hu := two_zpow_pos (-1074)
  have hm := round_half_even_eq (q / 2 ^ (-1074 : Int)) m
    (by rw [lt_div_iff₀ hu]; exact h1) (by rw [div_lt_iff₀ hu]; exact h2)
  rw [round_candidate, hk, hm, if_neg]
  rw [not_le]
  have hsplit : (2 : ℚ) ^ (-1022 : Int) = 2 ^ (52 : ℕ) * 2 ^ (-1074 : Int) := by
    rw [← zpow_natCast, ← zpow_add₀ (by norm_num : (2 : ℚ) ≠ 0)]
    norm_num
  have hmlo : (0 : ℚ) ≤ (m : ℚ) := by
    have hneg : ((m : ℚ) - 1 / 2) * 2 ^ (-1074 : Int) < 2 ^ (52 : ℕ) * 2 ^ (-1074 : Int) := by
      rw [← hsplit]
      exact lt_trans h1 hsub
    have hpos' : (0 : ℚ) < ((m : ℚ) + 1 / 2) * 2 ^ (-1074 : Int) := lt_trans hpos h2
    have hm1 : (0 : ℚ) < (m : ℚ) + 1 / 2 := by
      by_contra hcon
      have := mul_nonpos_of_nonpos_of_nonneg (not_lt.mp hcon) (le_of_lt hu)
      linarith
    have : (-1 : Int) < m := by
      have : ((-1 : Int) : ℚ) < (m : ℚ) := by push_cast; linarith
      exact_mod_cast this
    exact_mod_cast (by omega : (0 : Int) ≤ m)
  have hmhi : (m : ℚ) * 2 ^ (-1074 : Int) < 2 ^ (-1021 : Int) := by
    have h3 : ((m : ℚ) - 1 / 2) * 2 ^ (-1074 : Int) < 2 ^ (-1022 : Int) := lt_trans h1 hsub
    have h4 : (1 / 2 : ℚ) * 2 ^ (-1074 : Int) < 2 ^ (-1022 : Int) := by
      rw [hsplit]
      nlinarith
    have h5 : (2 : ℚ) ^ (-1021 : Int) = 2 * 2 ^ (-1022 : Int) := by
      rw [show (-1021 : Int) = 1 + -1022 by norm_num, zpow_add₀ (by norm_num : (2 : ℚ) ≠ 0)]
      norm_num
    rw [h5]
    nlinarith
  rw [abs_of_nonneg (mul_nonneg hmlo (le_of_lt hu))]
  have hbig : (2 : ℚ) ^ (-1021 : Int) ≤ 2 ^ ((1024 : ℕ) : Int) :=
    zpow_le_zpow_right₀ (by norm_num) (by norm_num)
  rw [zpow_natCast] at hbig
  exact lt_of_lt_of_le hmhi hbig

theorem one_point_one : (1.1 : Double) = Double.finite (2476979795053773 / 2251799813685248) := by
  show Double.round (1.1 : ℚ) = _
  rw [double_round_eq_of_binade (1.1 : ℚ) 0 4953959590107546 (by norm_num) (by norm_num)
    (by norm_num) (by norm_num) (by norm_num) (by norm_num)]
  norm_num

theorem one_point_zero : (1.0 : Double) = Double.finite 1 := by
  show Double.round (1.0 : ℚ) = _
  have h := double_round_intCast 1 (by norm_num)
  rw [show (1.0 : ℚ) = ((1 : Int) : ℚ) by norm_num, h]
  norm_num

/-! ## Facts about the string comparison -/

theorem compare_chars_eq_zero (l r : List Char) : compare_chars l r = 0 ↔ l = r := by
  induction l generalizing r with
  | nil => cases r <;> simp [compare_chars]
  | cons a l ih =>
    cases r with
    | nil => simp [compare_chars]
    | cons b r =>
      unfold compare_chars
      by_cases hab : a < b
      · have hne : a ≠ b := ne_of_lt hab
        simp [hab, hne]
      · by_cases hba : b < a
        · have hne : a ≠ b := (ne_of_lt hba).symm
          simp [hab, hba, hne]
        · have heq : a = b := le_antisymm (not_lt.mp hba) (not_lt.mp hab)
          simp [hab, heq, ih]

/-- The test of `load_images` for one suffix, `size() >= k` and a zero `compare` on
the last `k` characters, holds exactly when the name ends in the suffix. -/
theorem suffix_test_iff (filename s : String) :
    (filename.length ≥ s.length
      ∧ string_compare filename (filename.length - s.length) s.length s = 0)
      ↔ s.data <:+ filename.data := by
  unfold string_compare
  rw [compare_chars_eq_zero]
  constructor
  · rintro ⟨hlen, heq⟩
    have hdrop : (filename.data.drop (filename.length - s.length)).length = s.length := by
      simp only [List.length_drop, String.length] at *
      omega
    rw [List.take_of_length_le (le_of_eq hdrop)] at heq
    rw [← heq]
    exact List.drop_suffix _ _
  · intro hsuf
    have hlen : s.data.length ≤ filename.data.length := hsuf.length_le
    refine ⟨hlen, ?_⟩
    have hd := List.suffix_iff_eq_drop.mp hsuf
    simp only [String.length]
    rw [← hd]
    exact List.take_of_length_le (le_of_eq rfl)

/-! ## The directory scan -/

theorem scan_entry_eq (directory : String) (image_files : List String) (filename : String) :
    GIViewer.scan_entry directory image_files filename
      = if has_image_suffix filename then image_files ++ [directory ++ "/" ++ filename]
        else image_files := by
  have hjpg := suffix_test_iff filename ".jpg"
  have hpng := suffix_test_iff filename ".png"
  have hjpeg := suffix_test_iff filename ".jpeg"
  rw [show (".jpg" : String).length = 4 from rfl] at hjpg
  rw [show (".png" : String).length = 4 from rfl] at hpng
  rw [show (".jpeg" : String).length = 5 from rfl] at hjpeg
  unfold GIViewer.scan_entry has_image_suffix
  simp only [hjpg, hpng, hjpeg, Bool.or_eq_true, decide_eq_true_eq]
  by_cases h1 : ".jpg".data <:+ filename.data
  · simp [h1]
  · by_cases h2 : ".png".data <:+ filename.data
    · simp [h1, h2]
    · by_cases h3 : ".jpeg".data <:+ filename.data
      · simp [h1, h2, h3]
      · simp [h1, h2, h3]

theorem scan_foldl_eq (directory : String) (entries : List String) (acc : List String) :
    entries.foldl (GIViewer.scan_entry directory) acc
      = acc ++ (entries.filter has_image_suffix).map (fun name => directory ++ "/" ++ name) := by
  induction entries generalizing acc with
  | nil => simp
  | cons name rest ih =>
    rw [List.foldl_cons, ih, scan_entry_eq]
    by_cases h : has_image_suffix name = true
    · simp [h, List.filter_cons]
    · simp [h, List.filter_cons]

/-! ## The render step -/

theorem resize_image_eq (viewer : GIViewer) (pixbuf : Option GdkPixbuf) :
    ∃ shown, viewer.resize_image pixbuf = { viewer with image := shown } := by
  cases pixbuf with
  | none => exact ⟨viewer.image, rfl⟩
  | some p => exact ⟨_, rfl⟩

theorem update_image_of_valid (dec : String → Option GdkPixbuf) (viewer : GIViewer)
    (h : viewer.image_files = []
      ∨ to_size_t viewer.current_image_index < viewer.image_files.length) :
    ∃ shown, viewer.update_image dec = some { viewer with image := shown } := by
  unfold GIViewer.update_image
  by_cases hempty : viewer.image_files = []
  · refine ⟨viewer.image, ?_⟩
    cases viewer
    simp_all
  · have hlt : to_size_t viewer.current_image_index < viewer.image_files.length := by
      rcases h with h | h
      · exact absurd h hempty
      · exact h
    obtain ⟨shown, hshown⟩ := resize_image_eq viewer
      (dec (viewer.image_files[to_size_t viewer.current_image_index]))
    refine ⟨shown, ?_⟩
    simp [hempty, List.getElem?_eq_getElem hlt, hshown]

theorem update_image_some (dec : String → Option GdkPixbuf) (viewer result : GIViewer)
    (h : viewer.update_image dec = some result) :
    (viewer.image_files = []
      ∨ to_size_t viewer.current_image_index < viewer.image_files.length)
    ∧ ∃ shown, result = { viewer with image := shown } := by
  by_cases hempty : viewer.image_files = []
  · obtain ⟨shown, hs⟩ := update_image_of_valid dec viewer (Or.inl hempty)
    rw [hs] at h
    exact ⟨Or.inl hempty, shown, (Option.some.inj h).symm⟩
  · by_cases hlt : to_size_t viewer.current_image_index < viewer.image_files.length
    · obtain ⟨shown, hs⟩ := update_image_of_valid dec viewer (Or.inr hlt)
      rw [hs] at h
      exact ⟨Or.inr hlt, shown, (Option.some.inj h).symm⟩
    · exfalso
      unfold GIViewer.update_image at h
      have hnone : viewer.image_files[to_size_t viewer.current_image_index]? = none :=
        List.getElem?_eq_none (not_lt.mp hlt)
      simp [hempty, hnone] at h

/-! ## Loading a directory -/

theorem load_images_some (dec : String → Option GdkPixbuf) (viewer : GIViewer)
    (directory : String) (entries : List String) :
    ∃ shown, viewer.load_images dec directory (some entries)
      = some { viewer with
          image := shown
          image_files :=
            (entries.filter has_image_suffix).map (fun name => directory ++ "/" ++ name)
          current_image_index := 0 } := by
  unfold GIViewer.load_images
  simp only [scan_foldl_eq, List.nil_append]
  generalize hfiles :
    (entries.filter has_image_suffix).map (fun name => directory ++ "/" ++ name) = files
  cases files with
  | nil => exact ⟨Shown.nothing, by simp⟩
  | cons file rest =>
    obtain ⟨shown, hs⟩ := update_image_of_valid dec
      { viewer with image_files := file :: rest, current_image_index := 0 }
      (Or.inr (by simp [to_size_t]))
    exact ⟨shown, by simpa using hs⟩

theorem load_images_none (dec : String → Option GdkPixbuf) (viewer : GIViewer)
    (directory : String) :
    viewer.load_images dec directory none
      = some { viewer with
          image := Shown.nothing, image_files := [], current_image_index := 0 } := by
  simp [GIViewer.load_images]

/-! ## Navigation -/

theorem next_of_valid (dec : String → Option GdkPixbuf) (viewer : GIViewer) (k : Nat)
    (hidx : viewer.current_image_index = (k : Int)) (hk : k < viewer.image_files.length)
    (hn : viewer.image_files.length ≤ 2147483647) :
    ∃ shown, viewer.on_next_clicked dec
      = some { viewer with
          image := shown
          current_image_index :=
            (((if k + 1 = viewer.image_files.length then 0 else k + 1 : Nat)) : Int) } := by
  have hne : viewer.image_files.length ≠ 0 := by omega
  have hsum : wrap_int (viewer.current_image_index + 1) = ((k + 1 : Nat) : Int) := by
    rw [hidx, wrap_int_of_int (by omega) (by omega)]
    push_cast
    rfl
  have hmod : (k + 1) % viewer.image_files.length
      = if k + 1 = viewer.image_files.length then 0 else k + 1 := by
    split
    · next h => rw [h, Nat.mod_self]
    · next h => exact Nat.mod_eq_of_lt (by omega)
  have hlt : (if k + 1 = viewer.image_files.length then 0 else k + 1)
      < viewer.image_files.length := by
    split <;> omega
  unfold GIViewer.on_next_clicked
  simp only [if_neg hne, hsum]
  rw [to_size_t_of_nat _ (by omega), hmod, to_int_of_small _ (by omega)]
  obtain ⟨shown, hs⟩ := update_image_of_valid dec
    { viewer with
      current_image_index :=
        (((if k + 1 = viewer.image_files.length then 0 else k + 1 : Nat)) : Int) }
    (Or.inr (by
      show to_size_t (((if k + 1 = viewer.image_files.length then 0 else k + 1 : Nat)) : Int)
        < viewer.image_files.length
      rw [to_size_t_of_nat _ (by omega)]
      exact hlt))
  exact ⟨shown, hs⟩

theorem prev_of_valid (dec : String → Option GdkPixbuf) (viewer : GIViewer) (k : Nat)
    (hidx : viewer.current_image_index = (k : Int)) (hk : k < viewer.image_files.length)
    (hn : viewer.image_files.length ≤ 2147483647) :
    ∃ shown, viewer.on_prev_clicked dec
      = some { viewer with
          image := shown
          current_image_index :=
            (((if k = 0 then viewer.image_files.length - 1 else k - 1 : Nat)) : Int) } := by
  have hne : viewer.image_files.length ≠ 0 := by omega
  have hindex : (to_size_t (wrap_int (viewer.current_image_index - 1))
        + viewer.image_files.length) % SIZE_MOD % viewer.image_files.length
      = if k = 0 then viewer.image_files.length - 1 else k - 1 := by
    rw [hidx, wrap_int_of_int (by omega) (by omega)]
    by_cases h0 : k = 0
    · subst h0
      rw [if_pos rfl]
      have h1 : to_size_t (((0 : Nat) : Int) - 1) = 18446744073709551615 := by decide
      rw [h1]
      have h2 : (18446744073709551615 + viewer.image_files.length) % SIZE_MOD
          = viewer.image_files.length - 1 := by
        unfold SIZE_MOD
        omega
      rw [h2]
      exact Nat.mod_eq_of_lt (by omega)
    · rw [if_neg h0]
      have h1 : ((k : Int) - 1) = ((k - 1 : Nat) : Int) := by omega
      rw [h1, to_size_t_of_nat _ (by omega)]
      have h2 : (k - 1 + viewer.image_files.length) % SIZE_MOD
          = k - 1 + viewer.image_files.length := by
        unfold SIZE_MOD
        omega
      rw [h2, Nat.add_mod_right]
      exact Nat.mod_eq_of_lt (by omega)
  have hlt : (if k = 0 then viewer.image_files.length - 1 else k - 1)
      < viewer.image_files.length := by
    split <;> omega
  unfold GIViewer.on_prev_clicked
  simp only [if_neg hne, hindex]
  rw [to_int_of_small _ (by omega)]
  obtain ⟨shown, hs⟩ := update_image_of_valid dec
    { viewer with
      current_image_index :=
        (((if k = 0 then viewer.image_files.length - 1 else k - 1 : Nat)) : Int) }
    (Or.inr (by
      show to_size_t (((if k = 0 then viewer.image_files.length - 1 else k - 1 : Nat)) : Int)
        < viewer.image_files.length
      rw [to_size_t_of_nat _ (by omega)]
      exact hlt))
  exact ⟨shown, hs⟩

theorem repeat_next_of_valid (dec : String → Option GdkPixbuf) (count : Nat) :
    ∀ (viewer : GIViewer) (k : Nat), viewer.current_image_index = (k : Int) →
      k < viewer.image_files.length → viewer.image_files.length ≤ 2147483647 →
      ∃ w, viewer.repeat_next dec count = some w ∧ w.image_files = viewer.image_files
        ∧ w.current_image_index = (((k + count) % viewer.image_files.length : Nat) : Int) := by
  induction count with
  | zero =>
    intro viewer k hidx hk _
    refine ⟨viewer, rfl, rfl, ?_⟩
    rw [hidx, Nat.add_zero, Nat.mod_eq_of_lt hk]
  | succ count ih =>
    intro viewer k hidx hk hn
    obtain ⟨shown, hnext⟩ := next_of_valid dec viewer k hidx hk hn
    have hlt : (if k + 1 = viewer.image_files.length then 0 else k + 1)
        < viewer.image_files.length := by
      split <;> omega
    obtain ⟨w, hw, hfiles, hwidx⟩ := ih
      { viewer with
        image := shown
        current_image_index :=
          (((if k + 1 = viewer.image_files.length then 0 else k + 1 : Nat)) : Int) }
      (if k + 1 = viewer.image_files.length then 0 else k + 1) rfl hlt hn
    refine ⟨w, ?_, hfiles, ?_⟩
    · show (viewer.on_next_clicked dec).bind (GIViewer.repeat_next dec count) = some w
      rw [hnext]
      exact hw
    · rw [hwidx]
      show (((if k + 1 = viewer.image_files.length then 0 else k + 1) + count)
        % viewer.image_files.length : Nat)
        = (((k + (count + 1)) % viewer.image_files.length : Nat) : Int)
      congr 1
      by_cases hwrap : k + 1 = viewer.image_files.length
      · rw [if_pos hwrap, show k + (count + 1) = viewer.image_files.length + count by omega,
          Nat.add_mod_left, Nat.zero_add]
      · rw [if_neg hwrap, show k + (count + 1) = k + 1 + count by omega]

/-- C1: after `load_images` on a directory whose enumeration succeeds, the list is,
in enumeration order, `directory + "/" + name` for exactly the names that end in
".jpg", ".png" or ".jpeg"; upper-case, other and too short names are left out. -/
theorem load_images_lists_suffixed_names (dec : String → Option GdkPixbuf)
    (viewer : GIViewer) (directory : String) (entries : List String) :
    (∃ loaded, viewer.load_images dec directory (some entries) = some loaded
      ∧ loaded.image_files
        = (entries.filter (fun name =>
              decide (".jpg".data <:+ name.data ∨ ".png".data <:+ name.data
                ∨ ".jpeg".data <:+ name.data))).map
            (fun name => directory ++ "/" ++ name))
    ∧ (∃ loaded, viewer.load_images dec "d"
          (some ["a.jpg", "b.JPG", "c.gif", "jpg", "d.png", ".jpeg", "e.jpg.txt", "a.jpg"])
          = some loaded
        ∧ loaded.image_files = ["d/a.jpg", "d/d.png", "d/.jpeg", "d/a.jpg"]) := by
  have hpred : (fun name : String =>
      decide (".jpg".data <:+ name.data ∨ ".png".data <:+ name.data
        ∨ ".jpeg".data <:+ name.data)) = has_image_suffix := by
    funext name
    simp [has_image_suffix, Bool.decide_or, Bool.or_assoc]
  constructor
  · obtain ⟨shown, hs⟩ := load_images_some dec viewer directory entries
    rw [hpred]
    exact ⟨_, hs, rfl⟩
  · obtain ⟨shown, hs⟩ := load_images_some dec viewer "d"
      ["a.jpg", "b.JPG", "c.gif", "jpg", "d.png", ".jpeg", "e.jpg.txt", "a.jpg"]
    have hlist : List.map (fun name => "d" ++ "/" ++ name)
        (List.filter has_image_suffix
          ["a.jpg", "b.JPG", "c.gif", "jpg", "d.png", ".jpeg", "e.jpg.txt", "a.jpg"])
        = ["d/a.jpg", "d/d.png", "d/.jpeg", "d/a.jpg"] := by decide
    exact ⟨_, hs, hlist⟩

/-- C2 (the code at the failing input): with an empty list both `on_next_clicked` and
`on_prev_clicked` take a remainder modulo `image_files.size() = 0`; the run has no
defined continuation, whatever the other fields are. -/
theorem next_prev_on_empty_list_undefined (dec : String → Option GdkPixbuf)
    (image : Shown) (index : Int) (zoom : Double) (cropping : Bool) (crop : GdkRectangle) :
    GIViewer.on_next_clicked dec
        { image := image, image_files := [], current_image_index := index,
          zoom_factor := zoom, is_cropping := cropping, crop_area := crop } = none
    ∧ GIViewer.on_prev_clicked dec
        { image := image, image_files := [], current_image_index := index,
          zoom_factor := zoom, is_cropping := cropping, crop_area := crop } = none
    ∧ GIViewer.on_next_clicked dec (GIViewer.construct crop) = none
    ∧ GIViewer.on_prev_clicked dec (GIViewer.construct crop) = none := by
  simp [GIViewer.on_next_clicked, GIViewer.on_prev_clicked, GIViewer.construct]

/-- C3: in a non-empty list of at most 2^31 - 1 files with the index inside the list,
next then previous, and previous then next, both complete and give back the index
(and the list). -/
theorem next_prev_round_trip (dec : String → Option GdkPixbuf) (viewer : GIViewer)
    (h0 : 0 ≤ viewer.current_image_index)
    (h1 : viewer.current_image_index < viewer.image_files.length)
    (hN : viewer.image_files.length ≤ 2147483647) :
    (∃ a b, viewer.on_next_clicked dec = some a ∧ a.on_prev_clicked dec = some b
      ∧ b.current_image_index = viewer.current_image_index
      ∧ b.image_files = viewer.image_files)
    ∧ (∃ a b, viewer.on_prev_clicked dec = some a ∧ a.on_next_clicked dec = some b
      ∧ b.current_image_index = viewer.current_image_index
      ∧ b.image_files = viewer.image_files) := by
  obtain ⟨k, hk⟩ := Int.eq_ofNat_of_zero_le h0
  have hlt : k < viewer.image_files.length := by omega
  constructor
  · obtain ⟨s1, hnext⟩ := next_of_valid dec viewer k hk hlt hN
    have hlt1 : (if k + 1 = viewer.image_files.length then 0 else k + 1)
        < viewer.image_files.length := by
      split <;> omega
    obtain ⟨s2, hprev⟩ := prev_of_valid dec
      { viewer with
        image := s1
        current_image_index :=
          (((if k + 1 = viewer.image_files.length then 0 else k + 1 : Nat)) : Int) }
      (if k + 1 = viewer.image_files.length then 0 else k + 1) rfl hlt1 hN
    refine ⟨_, _, hnext, hprev, ?_, rfl⟩
    show (((if (if k + 1 = viewer.image_files.length then 0 else k + 1) = 0
        then viewer.image_files.length - 1
        else (if k + 1 = viewer.image_files.length then 0 else k + 1) - 1 : Nat)) : Int)
      = viewer.current_image_index
    rw [hk]
    congr 1
    by_cases hw : k + 1 = viewer.image_files.length
    · simp only [hw, if_true]
      omega
    · have hs : ¬ k + 1 = 0 := by omega
      simp only [hw, hs, if_false]
      omega
  · obtain ⟨s1, hprev⟩ := prev_of_valid dec viewer k hk hlt hN
    have hlt1 : (if k = 0 then viewer.image_files.length - 1 else k - 1)
        < viewer.image_files.length := by
      split <;> omega
    obtain ⟨s2, hnext⟩ := next_of_valid dec
      { viewer with
        image := s1
        current_image_index :=
          (((if k = 0 then viewer.image_files.length - 1 else k - 1 : Nat)) : Int) }
      (if k = 0 then viewer.image_files.length - 1 else k - 1) rfl hlt1 hN
    refine ⟨_, _, hprev, hnext, ?_, rfl⟩
    show (((if (if k = 0 then viewer.image_files.length - 1 else k - 1) + 1
          = viewer.image_files.length
        then 0
        else (if k = 0 then viewer.image_files.length - 1 else k - 1) + 1 : Nat)) : Int)
      = viewer.current_image_index
    rw [hk]
    congr 1
    by_cases hz : k = 0
    · have hs : viewer.image_files.length - 1 + 1 = viewer.image_files.length := by omega
      simp only [hz, hs, if_true]
    · have hs : k - 1 + 1 ≠ viewer.image_files.length := by omega
      simp only [hz, hs, if_false]
      omega

theorem next_at_int_max (dec : String → Option GdkPixbuf) (viewer : GIViewer)
    (hlen : viewer.image_files.length = 2147483649)
    (hidx : viewer.current_image_index = 2147483647) :
    ∃ shown, viewer.on_next_clicked dec
      = some { viewer with image := shown, current_image_index := 5 } := by
  have hcalc : to_int (to_size_t (wrap_int (2147483647 + 1)) % 2147483649) = 5 := by decide
  unfold GIViewer.on_next_clicked
  simp only [hlen, hidx, hcalc]
  rw [if_neg (by decide)]
  obtain ⟨shown, hs⟩ := update_image_of_valid dec
    { viewer with current_image_index := 5 }
    (Or.inr (by
      show to_size_t 5 < viewer.image_files.length
      rw [hlen]
      decide))
  exact ⟨shown, hs⟩

/-- C3 (witness): three files, index 0. -/
theorem next_prev_round_trip_witness :
    (0 ≤ GIViewer.three_files.current_image_index
      ∧ GIViewer.three_files.current_image_index < GIViewer.three_files.image_files.length
      ∧ GIViewer.three_files.image_files.length ≤ 2147483647)
    ∧ (∃ a b, GIViewer.three_files.on_next_clicked sample_decoder = some a
        ∧ a.on_prev_clicked sample_decoder = some b
        ∧ b.current_image_index = GIViewer.three_files.current_image_index
        ∧ b.image_files = GIViewer.three_files.image_files)
    ∧ (∃ a b, GIViewer.three_files.on_prev_clicked sample_decoder = some a
        ∧ a.on_next_clicked sample_decoder = some b
        ∧ b.current_image_index = GIViewer.three_files.current_image_index
        ∧ b.image_files = GIViewer.three_files.image_files) :=
  ⟨⟨by decide, by decide, by decide⟩,
    next_prev_round_trip sample_decoder GIViewer.three_files (by decide) (by decide) (by decide)⟩

/-- C4 (counterexample): with 2^31 + 1 files and the index at 2^31 - 1, which is
inside the list, one click on next stores index 5, not (i + 1) mod N = 2^31. -/
theorem next_past_int_max_counterexample :
    (0 ≤ GIViewer.huge_folder.current_image_index
      ∧ GIViewer.huge_folder.current_image_index
          < GIViewer.huge_folder.image_files.length)
    ∧ (GIViewer.huge_folder.repeat_next sample_decoder 1).map
          (fun w => w.current_image_index) = some 5
    ∧ (GIViewer.huge_folder.current_image_index + 1)
          % (GIViewer.huge_folder.image_files.length : Int) = 2147483648 := by
  have hlen : GIViewer.huge_folder.image_files.length = 2147483649 :=
    List.length_replicate 2147483649 "a.png"
  have hidx : GIViewer.huge_folder.current_image_index = 2147483647 := rfl
  obtain ⟨shown, hs⟩ := next_at_int_max sample_decoder GIViewer.huge_folder hlen hidx
  refine ⟨⟨?_, ?_⟩, ?_, ?_⟩
  · rw [hidx]
    decide
  · rw [hidx, hlen]
    decide
  · show ((GIViewer.huge_folder.on_next_clicked sample_decoder).bind
        (GIViewer.repeat_next sample_decoder 0)).map (fun w => w.current_image_index) = some 5
    rw [hs]
    rfl
  · rw [hidx, hlen]
    decide

/-- C4 (amended): in a non-empty list of N files, N at most 2^31 - 1, with the index i
inside the list, k clicks on next complete and leave the index (i + k) mod N; N
clicks give back i, and fewer clicks (but at least one) do not. -/
theorem repeat_next_cycles (dec : String → Option GdkPixbuf) (viewer : GIViewer)
    (h0 : 0 ≤ viewer.current_image_index)
    (h1 : viewer.current_image_index < viewer.image_files.length)
    (hN : viewer.image_files.length ≤ 2147483647) :
    (∀ count : Nat, ∃ w, viewer.repeat_next dec count = some w
      ∧ w.current_image_index
          = (viewer.current_image_index + (count : Int)) % (viewer.image_files.length : Int)
      ∧ w.image_files = viewer.image_files)
    ∧ (∃ w, viewer.repeat_next dec viewer.image_files.length = some w
      ∧ w.current_image_index = viewer.current_image_index)
    ∧ (∀ count : Nat, 0 < count → count < viewer.image_files.length →
        ∃ w, viewer.repeat_next dec count = some w
          ∧ w.current_image_index ≠ viewer.current_image_index) := by
  obtain ⟨k, hk⟩ := Int.eq_ofNat_of_zero_le h0
  have hlt : k < viewer.image_files.length := by omega
  refine ⟨?_, ?_, ?_⟩
  · intro count
    obtain ⟨w, hw, hfiles, hidx⟩ := repeat_next_of_valid dec count viewer k hk hlt hN
    refine ⟨w, hw, ?_, hfiles⟩
    rw [hidx, hk]
    push_cast
    rfl
  · obtain ⟨w, hw, _, hidx⟩ :=
      repeat_next_of_valid dec viewer.image_files.length viewer k hk hlt hN
    refine ⟨w, hw, ?_⟩
    rw [hidx, hk, Nat.add_mod_right, Nat.mod_eq_of_lt hlt]
  · intro count hpos hcount
    obtain ⟨w, hw, _, hidx⟩ := repeat_next_of_valid dec count viewer k hk hlt hN
    refine ⟨w, hw, ?_⟩
    rw [hidx, hk]
    intro heq
    have hnat : (k + count) % viewer.image_files.length = k := by exact_mod_cast heq
    by_cases hsum : k + count < viewer.image_files.length
    · rw [Nat.mod_eq_of_lt hsum] at hnat
      omega
    · rw [Nat.mod_eq_sub_mod (not_lt.mp hsum), Nat.mod_eq_of_lt (by omega)] at hnat
      omega

/-- C4 (witness): three files, index 0. -/
theorem repeat_next_cycles_witness :
    (0 ≤ GIViewer.three_files.current_image_index
      ∧ GIViewer.three_files.current_image_index < GIViewer.three_files.image_files.length
      ∧ GIViewer.three_files.image_files.length ≤ 2147483647)
    ∧ (∀ count : Nat, ∃ w, GIViewer.three_files.repeat_next sample_decoder count = some w
      ∧ w.current_image_index
          = (GIViewer.three_files.current_image_index + (count : Int))
              % (GIViewer.three_files.image_files.length : Int)
      ∧ w.image_files = GIViewer.three_files.image_files)
    ∧ (∃ w, GIViewer.three_files.repeat_next sample_decoder
          GIViewer.three_files.image_files.length = some w
      ∧ w.current_image_index = GIViewer.three_files.current_image_index)
    ∧ (∀ count : Nat, 0 < count → count < GIViewer.three_files.image_files.length →
        ∃ w, GIViewer.three_files.repeat_next sample_decoder count = some w
          ∧ w.current_image_index ≠ GIViewer.three_files.current_image_index) :=
  ⟨⟨by decide, by decide, by decide⟩,
    repeat_next_cycles sample_decoder GIViewer.three_files (by decide) (by decide) (by decide)⟩

/-! ## The invariant of the navigator -/

theorem index_valid_congr (viewer w : GIViewer) (hfiles : w.image_files = viewer.image_files)
    (hidx : w.current_image_index = viewer.current_image_index)
    (h : viewer.index_valid) : w.index_valid := by
  unfold GIViewer.index_valid at *
  rw [hfiles, hidx]
  exact h

theorem readable_of_index_valid (viewer : GIViewer) (h : viewer.index_valid) :
    viewer.image_files = []
      ∨ to_size_t viewer.current_image_index < viewer.image_files.length := by
  rcases h with ⟨hempty, _⟩ | ⟨_, h0, h1⟩
  · exact Or.inl hempty
  · right
    unfold to_size_t SIZE_MOD
    omega

theorem zoomed_update (dec : String → Option GdkPixbuf) (viewer : GIViewer) (zoom : Double)
    (h : viewer.image_files = []
      ∨ to_size_t viewer.current_image_index < viewer.image_files.length) :
    ∃ shown, GIViewer.update_image dec { viewer with zoom_factor := zoom }
      = some { viewer with zoom_factor := zoom, image := shown } :=
  update_image_of_valid dec { viewer with zoom_factor := zoom } h

theorem key_press_zoom_in (dec : String → Option GdkPixbuf) (viewer : GIViewer)
    (event : GdkEventKey)
    (h : viewer.image_files = []
      ∨ to_size_t viewer.current_image_index < viewer.image_files.length)
    (hctrl : event.state &&& GDK_CONTROL_MASK ≠ 0)
    (hkey : event.keyval = GDK_KEY_plus ∨ event.keyval = GDK_KEY_equal) :
    ∃ shown, viewer.on_key_press dec event
      = some ({ viewer with zoom_factor := viewer.zoom_factor * 1.1, image := shown }, true) := by
  obtain ⟨shown, hs⟩ := zoomed_update dec viewer (viewer.zoom_factor * 1.1) h
  refine ⟨shown, ?_⟩
  unfold GIViewer.on_key_press
  rw [if_pos hctrl, if_pos hkey, hs]
  rfl

theorem key_press_zoom_out (dec : String → Option GdkPixbuf) (viewer : GIViewer)
    (event : GdkEventKey)
    (h : viewer.image_files = []
      ∨ to_size_t viewer.current_image_index < viewer.image_files.length)
    (hctrl : event.state &&& GDK_CONTROL_MASK ≠ 0)
    (hkey : event.keyval = GDK_KEY_minus) :
    ∃ shown, viewer.on_key_press dec event
      = some ({ viewer with zoom_factor := viewer.zoom_factor / 1.1, image := shown }, true) := by
  obtain ⟨shown, hs⟩ := zoomed_update dec viewer (viewer.zoom_factor / 1.1) h
  refine ⟨shown, ?_⟩
  have hnot : ¬ (event.keyval = GDK_KEY_plus ∨ event.keyval = GDK_KEY_equal) := by
    rw [hkey]
    decide
  unfold GIViewer.on_key_press
  rw [if_pos hctrl, if_neg hnot, if_pos hkey, hs]
  rfl

theorem key_press_frame (dec : String → Option GdkPixbuf) (viewer : GIViewer)
    (event : GdkEventKey)
    (h : viewer.image_files = []
      ∨ to_size_t viewer.current_image_index < viewer.image_files.length) :
    ∃ w b, viewer.on_key_press dec event = some (w, b)
      ∧ w.image_files = viewer.image_files
      ∧ w.current_image_index = viewer.current_image_index
      ∧ w.is_cropping = viewer.is_cropping ∧ w.crop_area = viewer.crop_area := by
  by_cases hctrl : event.state &&& GDK_CONTROL_MASK ≠ 0
  · by_cases hin : event.keyval = GDK_KEY_plus ∨ event.keyval = GDK_KEY_equal
    · obtain ⟨shown, hs⟩ := key_press_zoom_in dec viewer event h hctrl hin
      exact ⟨_, _, hs, rfl, rfl, rfl, rfl⟩
    · by_cases hout : event.keyval = GDK_KEY_minus
      · obtain ⟨shown, hs⟩ := key_press_zoom_out dec viewer event h hctrl hout
        exact ⟨_, _, hs, rfl, rfl, rfl, rfl⟩
      · refine ⟨viewer, false, ?_, rfl, rfl, rfl, rfl⟩
        unfold GIViewer.on_key_press
        rw [if_pos hctrl, if_neg hin, if_neg hout]
  · refine ⟨viewer, false, ?_, rfl, rfl, rfl, rfl⟩
    unfold GIViewer.on_key_press
    rw [if_neg hctrl]

theorem scroll_result (dec : String → Option GdkPixbuf) (viewer : GIViewer)
    (event : GdkEventScroll)
    (h : viewer.image_files = []
      ∨ to_size_t viewer.current_image_index < viewer.image_files.length) :
    ∃ shown, viewer.on_scroll dec event
      = some ({ viewer with
                zoom_factor :=
                  if event.direction = GdkScrollDirection.UP then viewer.zoom_factor * 1.1
                  else if event.direction = GdkScrollDirection.DOWN then
                    viewer.zoom_factor / 1.1
                  else viewer.zoom_factor
                image := shown }, true) := by
  unfold GIViewer.on_scroll
  by_cases hup : event.direction = GdkScrollDirection.UP
  · obtain ⟨shown, hs⟩ := zoomed_update dec viewer (viewer.zoom_factor * 1.1) h
    refine ⟨shown, ?_⟩
    simp only [if_pos hup, hs]
    rfl
  · by_cases hdown : event.direction = GdkScrollDirection.DOWN
    · obtain ⟨shown, hs⟩ := zoomed_update dec viewer (viewer.zoom_factor / 1.1) h
      refine ⟨shown, ?_⟩
      simp only [if_neg hup, if_pos hdown, hs]
      rfl
    · obtain ⟨shown, hs⟩ := update_image_of_valid dec viewer h
      refine ⟨shown, ?_⟩
      simp only [if_neg hup, if_neg hdown, hs]
      rfl

theorem load_images_index_valid (dec : String → Option GdkPixbuf) (viewer : GIViewer)
    (directory : String) (opendir : Option (List String)) :
    ∃ w, viewer.load_images dec directory opendir = some w ∧ w.index_valid := by
  cases opendir with
  | none =>
    exact ⟨_, load_images_none dec viewer directory, Or.inl ⟨rfl, rfl⟩⟩
  | some entries =>
    obtain ⟨shown, hs⟩ := load_images_some dec viewer directory entries
    refine ⟨_, hs, ?_⟩
    unfold GIViewer.index_valid
    generalize (entries.filter has_image_suffix).map (fun name => directory ++ "/" ++ name)
      = files
    cases files with
    | nil => exact Or.inl ⟨rfl, rfl⟩
    | cons file rest =>
      right
      refine ⟨by simp, le_refl _, ?_⟩
      simp only [List.length_cons]
      omega

theorem next_prev_keep_index_valid (dec : String → Option GdkPixbuf) (viewer : GIViewer)
    (hinv : viewer.index_valid) (hne : viewer.image_files ≠ [])
    (hN : viewer.image_files.length ≤ 2147483647) :
    (∃ w, viewer.on_next_clicked dec = some w ∧ w.index_valid)
    ∧ (∃ w, viewer.on_prev_clicked dec = some w ∧ w.index_valid) := by
  rcases hinv with ⟨hempty, _⟩ | ⟨_, h0, h1⟩
  · exact absurd hempty hne
  · obtain ⟨k, hk⟩ := Int.eq_ofNat_of_zero_le h0
    have hlt : k < viewer.image_files.length := by omega
    obtain ⟨s1, hnext⟩ := next_of_valid dec viewer k hk hlt hN
    obtain ⟨s2, hprev⟩ := prev_of_valid dec viewer k hk hlt hN
    refine ⟨⟨_, hnext, Or.inr ⟨hne, ?_, ?_⟩⟩, ⟨_, hprev, Or.inr ⟨hne, ?_, ?_⟩⟩⟩
    · exact Int.ofNat_nonneg _
    · show (((if k + 1 = viewer.image_files.length then 0 else k + 1 : Nat)) : Int)
        < (viewer.image_files.length : Int)
      split_ifs <;> omega
    · exact Int.ofNat_nonneg _
    · show (((if k = 0 then viewer.image_files.length - 1 else k - 1 : Nat)) : Int)
        < (viewer.image_files.length : Int)
      split_ifs <;> omega

theorem prev_at_start_of_huge (dec : String → Option GdkPixbuf) (viewer : GIViewer)
    (hlen : viewer.image_files.length = 2147483649)
    (hidx : viewer.current_image_index = 0) :
    viewer.on_prev_clicked dec = none := by
  have hcalc : to_int ((to_size_t (wrap_int (0 - 1)) + 2147483649) % SIZE_MOD % 2147483649)
      = -2147483648 := by decide
  have hne : viewer.image_files ≠ [] := by
    intro hnil
    rw [hnil] at hlen
    exact absurd hlen (by decide)
  unfold GIViewer.on_prev_clicked
  simp only [hlen, hidx, hcalc]
  rw [if_neg (by decide)]
  unfold GIViewer.update_image
  have hread : viewer.image_files[to_size_t (-2147483648)]? = none := by
    apply List.getElem?_eq_none
    rw [hlen]
    decide
  simp [hne, hread]

/-- C5 (counterexample): with 2^31 + 1 files and the index at 0 the predicate holds,
and a click on previous computes the index 2^31, stores it in the `int` as -2^31
and reads `image_files` outside the vector: no state satisfying the predicate
follows. -/
theorem index_valid_lost_by_prev_counterexample :
    GIViewer.huge_folder_start.index_valid
    ∧ to_int ((to_size_t (wrap_int (GIViewer.huge_folder_start.current_image_index - 1))
          + 2147483649) % SIZE_MOD % 2147483649) = -2147483648
    ∧ GIViewer.huge_folder_start.on_prev_clicked sample_decoder = none
    ∧ ¬ ∃ w, GIViewer.huge_folder_start.on_prev_clicked sample_decoder = some w
        ∧ w.index_valid := by
  have hlen : GIViewer.huge_folder_start.image_files.length = 2147483649 :=
    List.length_replicate 2147483649 "a.png"
  have hidx : GIViewer.huge_folder_start.current_image_index = 0 := rfl
  have hnone := prev_at_start_of_huge sample_decoder GIViewer.huge_folder_start hlen hidx
  refine ⟨?_, ?_, hnone, ?_⟩
  · right
    refine ⟨?_, ?_, ?_⟩
    · intro hnil
      rw [hnil] at hlen
      exact absurd hlen (by decide)
    · rw [hidx]
    · rw [hidx, hlen]
      decide
  · rw [hidx]
    decide
  · rintro ⟨w, hw, _⟩
    rw [hnone] at hw
    exact absurd hw (by simp)

/-- C5 (amended): the predicate "empty list and index 0, or non-empty list and index
inside it" holds after the constructor and after every `load_images`, which
completes from every state; from a state that satisfies it the key, scroll, button
and motion handlers complete and keep it, and next and previous complete and keep
it when the list is non-empty and has at most 2^31 - 1 files. -/
theorem index_valid_is_invariant (dec : String → Option GdkPixbuf) (viewer : GIViewer)
    (hinv : viewer.index_valid) :
    (∀ crop, (GIViewer.construct crop).index_valid)
    ∧ (∀ directory opendir,
        ∃ w, viewer.load_images dec directory opendir = some w ∧ w.index_valid)
    ∧ (viewer.image_files ≠ [] → viewer.image_files.length ≤ 2147483647 →
        (∃ w, viewer.on_next_clicked dec = some w ∧ w.index_valid)
        ∧ (∃ w, viewer.on_prev_clicked dec = some w ∧ w.index_valid))
    ∧ (∀ event, ∃ w b, viewer.on_key_press dec event = some (w, b) ∧ w.index_valid)
    ∧ (∀ event, ∃ w b, viewer.on_scroll dec event = some (w, b) ∧ w.index_valid)
    ∧ (∀ event, (viewer.on_button_press event).1.index_valid)
    ∧ (∀ event, (viewer.on_motion_notify event).1.index_valid)
    ∧ (∀ event, (viewer.on_button_release event).1.index_valid) := by
  have hread := readable_of_index_valid viewer hinv
  refine ⟨?_, ?_, ?_, ?_, ?_, ?_, ?_, ?_⟩
  · intro crop
    exact Or.inl ⟨rfl, rfl⟩
  · intro directory opendir
    exact load_images_index_valid dec viewer directory opendir
  · intro hne hN
    exact next_prev_keep_index_valid dec viewer hinv hne hN
  · intro event
    obtain ⟨w, b, hs, hfiles, hidx, _, _⟩ := key_press_frame dec viewer event hread
    exact ⟨w, b, hs, index_valid_congr viewer w hfiles hidx hinv⟩
  · intro event
    obtain ⟨shown, hs⟩ := scroll_result dec viewer event hread
    exact ⟨_, _, hs, index_valid_congr viewer _ rfl rfl hinv⟩
  · intro event
    unfold GIViewer.on_button_press
    split
    · exact index_valid_congr viewer _ rfl rfl hinv
    · exact hinv
  · intro event
    unfold GIViewer.on_motion_notify GIViewer.update_crop_area
    split
    · simp only [*, if_true]
      exact index_valid_congr viewer _ rfl rfl hinv
    · exact hinv
  · intro event
    unfold GIViewer.on_button_release
    split
    · exact index_valid_congr viewer _ rfl rfl hinv
    · exact hinv

/-- C5 (witness): three files, index 0. -/
theorem index_valid_is_invariant_witness :
    GIViewer.three_files.index_valid
    ∧ ((∀ crop, (GIViewer.construct crop).index_valid)
    ∧ (∀ directory opendir,
        ∃ w, GIViewer.three_files.load_images sample_decoder directory opendir = some w
          ∧ w.index_valid)
    ∧ (GIViewer.three_files.image_files ≠ [] →
        GIViewer.three_files.image_files.length ≤ 2147483647 →
        (∃ w, GIViewer.three_files.on_next_clicked sample_decoder = some w ∧ w.index_valid)
        ∧ (∃ w, GIViewer.three_files.on_prev_clicked sample_decoder = some w
            ∧ w.index_valid))
    ∧ (∀ event, ∃ w b, GIViewer.three_files.on_key_press sample_decoder event = some (w, b)
        ∧ w.index_valid)
    ∧ (∀ event, ∃ w b, GIViewer.three_files.on_scroll sample_decoder event = some (w, b)
        ∧ w.index_valid)
    ∧ (∀ event, (GIViewer.three_files.on_button_press event).1.index_valid)
    ∧ (∀ event, (GIViewer.three_files.on_motion_notify event).1.index_valid)
    ∧ (∀ event, (GIViewer.three_files.on_button_release event).1.index_valid)) :=
  ⟨by decide, index_valid_is_invariant sample_decoder GIViewer.three_files (by decide)⟩

/-- C6: `load_images` completes from every prior state; the list it leaves depends on
the directory and the enumeration only, and the index is 0.  When the directory
cannot be opened the list is empty, the index is 0, the image widget is cleared,
the other fields are untouched and the decoder plays no part in the result. -/
theorem load_images_resets (dec : String → Option GdkPixbuf) (viewer : GIViewer)
    (directory : String) :
    viewer.load_images dec directory none
        = some { viewer with
            image := Shown.nothing, image_files := [], current_image_index := 0 }
    ∧ (∀ other_dec : String → Option GdkPixbuf,
        viewer.load_images other_dec directory none = viewer.load_images dec directory none)
    ∧ (∀ (opendir : Option (List String)) (other : GIViewer)
        (other_dec : String → Option GdkPixbuf),
        ∃ a b, viewer.load_images dec directory opendir = some a
          ∧ other.load_images other_dec directory opendir = some b
          ∧ a.image_files = b.image_files
          ∧ a.current_image_index = 0 ∧ b.current_image_index = 0) := by
  refine ⟨load_images_none dec viewer directory, ?_, ?_⟩
  · intro other_dec
    rw [load_images_none, load_images_none]
  · intro opendir other other_dec
    cases opendir with
    | none =>
      exact ⟨_, _, load_images_none dec viewer directory,
        load_images_none other_dec other directory, rfl, rfl, rfl⟩
    | some entries =>
      obtain ⟨s1, h1⟩ := load_images_some dec viewer directory entries
      obtain ⟨s2, h2⟩ := load_images_some other_dec other directory entries
      exact ⟨_, _, h1, h2, rfl, rfl, rfl⟩

/-- C7: a primary press with control held at the integer position (x, y) makes the
tracker active with the box 200 by 200 at (x - 100, y - 100), drawn as the circle of
radius 100 around (x, y); a following motion to (x', y') keeps it active, moves the
circle to (x', y') and keeps width, height and radius; a following primary release
makes it idle and nothing is drawn. -/
theorem crop_press_motion_release (viewer : GIViewer) (x y x' y' : Int)
    (press release : GdkEventButton) (motion : GdkEventMotion)
    (hx : -2147483548 ≤ x ∧ x ≤ 2147483647) (hy : -2147483548 ≤ y ∧ y ≤ 2147483647)
    (hx' : -2147483548 ≤ x' ∧ x' ≤ 2147483647) (hy' : -2147483548 ≤ y' ∧ y' ≤ 2147483647)
    (hbutton : press.button = GDK_BUTTON_PRIMARY)
    (hctrl : press.state &&& GDK_CONTROL_MASK ≠ 0)
    (hpress : press.x = (x : ℚ) ∧ press.y = (y : ℚ))
    (hmotion : motion.x = (x' : ℚ) ∧ motion.y = (y' : ℚ))
    (hrelease : release.button = GDK_BUTTON_PRIMARY) :
    ((viewer.on_button_press press).1.is_cropping = true
      ∧ (viewer.on_button_press press).1.crop_area
          = { x := x - 100, y := y - 100, width := 200, height := 200 }
      ∧ (viewer.on_button_press press).1.on_draw = some { xc := x, yc := y, radius := 100 })
    ∧ (((viewer.on_button_press press).1.on_motion_notify motion).1.is_cropping = true
      ∧ ((viewer.on_button_press press).1.on_motion_notify motion).1.crop_area
          = { x := x' - 100, y := y' - 100, width := 200, height := 200 }
      ∧ ((viewer.on_button_press press).1.on_motion_notify motion).1.on_draw
          = some { xc := x', yc := y', radius := 100 })
    ∧ ((((viewer.on_button_press press).1.on_motion_notify motion).1.on_button_release
          release).1.is_cropping = false
      ∧ (((viewer.on_button_press press).1.on_motion_notify motion).1.on_button_release
          release).1.on_draw = none) := by
  have hcx : static_cast_int press.x = x := by
    rw [hpress.1]
    exact static_cast_int_intCast x (by omega) hx.2
  have hcy : static_cast_int press.y = y := by
    rw [hpress.2]
    exact static_cast_int_intCast y (by omega) hy.2
  have hmx : static_cast_int motion.x = x' := by
    rw [hmotion.1]
    exact static_cast_int_intCast x' (by omega) hx'.2
  have hmy : static_cast_int motion.y = y' := by
    rw [hmotion.2]
    exact static_cast_int_intCast y' (by omega) hy'.2
  have hwx : wrap_int (x - 100) = x - 100 := wrap_int_of_int (by omega) (by omega)
  have hwy : wrap_int (y - 100) = y - 100 := wrap_int_of_int (by omega) (by omega)
  have hwx' : wrap_int (x' - 100) = x' - 100 := wrap_int_of_int (by omega) (by omega)
  have hwy' : wrap_int (y' - 100) = y' - 100 := wrap_int_of_int (by omega) (by omega)
  have hp : viewer.on_button_press press
      = ({ viewer with
            is_cropping := true
            crop_area := { x := x - 100, y := y - 100, width := 200, height := 200 } },
          true) := by
    unfold GIViewer.on_button_press GIViewer.start_cropping
    rw [if_pos ⟨hbutton, hctrl⟩, hcx, hcy, hwx, hwy]
  have hm : GIViewer.on_motion_notify
        { viewer with
          is_cropping := true
          crop_area := { x := x - 100, y := y - 100, width := 200, height := 200 } }
        motion
      = ({ viewer with
            is_cropping := true
            crop_area := { x := x' - 100, y := y' - 100, width := 200, height := 200 } },
          true) := by
    unfold GIViewer.on_motion_notify GIViewer.update_crop_area
    simp only [if_true, hmx, hmy, hwx', hwy']
  have hr : GIViewer.on_button_release
        { viewer with
          is_cropping := true
          crop_area := { x := x' - 100, y := y' - 100, width := 200, height := 200 } }
        release
      = ({ viewer with
            is_cropping := false
            crop_area := { x := x' - 100, y := y' - 100, width := 200, height := 200 } },
          true) := by
    unfold GIViewer.on_button_release GIViewer.finish_cropping
    rw [if_pos ⟨hrelease, rfl⟩]
  rw [hp]
  simp only [hm, hr]
  have hix : wrap_int x = x := wrap_int_of_int (by omega) hx.2
  have hiy : wrap_int y = y := wrap_int_of_int (by omega) hy.2
  have hix' : wrap_int x' = x' := wrap_int_of_int (by omega) hx'.2
  have hiy' : wrap_int y' = y' := wrap_int_of_int (by omega) hy'.2
  simp [GIViewer.on_draw, hix, hiy, hix', hiy']

/-- C7 (witness): press at (150, 150), motion to (200, 180), release. -/
theorem crop_press_motion_release_witness :
    ((GIViewer.three_files.on_button_press example_press).1.is_cropping = true
      ∧ (GIViewer.three_files.on_button_press example_press).1.crop_area
          = { x := 150 - 100, y := 150 - 100, width := 200, height := 200 }
      ∧ (GIViewer.three_files.on_button_press example_press).1.on_draw
          = some { xc := 150, yc := 150, radius := 100 })
    ∧ (((GIViewer.three_files.on_button_press example_press).1.on_motion_notify
          example_motion).1.is_cropping = true
      ∧ ((GIViewer.three_files.on_button_press example_press).1.on_motion_notify
          example_motion).1.crop_area
          = { x := 200 - 100, y := 180 - 100, width := 200, height := 200 }
      ∧ ((GIViewer.three_files.on_button_press example_press).1.on_motion_notify
          example_motion).1.on_draw
          = some { xc := 200, yc := 180, radius := 100 })
    ∧ ((((GIViewer.three_files.on_button_press example_press).1.on_motion_notify
          example_motion).1.on_button_release example_release).1.is_cropping = false
      ∧ (((GIViewer.three_files.on_button_press example_press).1.on_motion_notify
          example_motion).1.on_button_release example_release).1.on_draw = none) :=
  crop_press_motion_release GIViewer.three_files 150 150 200 180
    example_press example_release example_motion
    (by decide) (by decide) (by decide) (by decide) rfl (by decide)
    ⟨by norm_num [example_press], by norm_num [example_press]⟩
    ⟨by norm_num [example_motion], by norm_num [example_motion]⟩ rfl

/-! ## The requested size -/

theorem static_cast_int_of_nonneg (d : ℚ) (h0 : 0 ≤ d) (h1 : ⌊d⌋ ≤ 2147483647) :
    static_cast_int d = ⌊d⌋ := by
  unfold static_cast_int INT_MIN INT_MAX
  have hf : 0 ≤ ⌊d⌋ := Int.floor_nonneg.mpr h0
  simp only [if_pos h0]
  rw [if_pos ⟨by omega, h1⟩]

theorem of_int_eq (n : Int) (h0 : -2147483648 ≤ n) (h1 : n ≤ 2147483647) :
    Double.of_int n = Double.finite (n : ℚ) := by
  apply double_round_intCast
  rw [abs_lt]
  have hlo : ((-2147483648 : Int) : ℚ) ≤ (n : ℚ) := by exact_mod_cast h0
  have hhi : (n : ℚ) ≤ ((2147483647 : Int) : ℚ) := by exact_mod_cast h1
  push_cast at hlo hhi
  constructor <;> norm_num <;> linarith

theorem mul_finite (a b : ℚ) :
    Double.finite a * Double.finite b = Double.round (a * b) := rfl

theorem div_finite (a b : ℚ) (hb : b ≠ 0) :
    Double.finite a / Double.finite b = Double.round (a / b) := by
  show Double.div (Double.finite a) (Double.finite b) = _
  simp [Double.div, hb]

/-- Relative error of one rounding for a positive value between 2^-64 and 2^64. -/
theorem round_rel_error_mid (q : ℚ) (hlo : 1 / 18446744073709551616 ≤ q)
    (hhi : q ≤ 18446744073709551616) :
    ∃ r, Double.round q = Double.finite r
      ∧ q - q / 9007199254740992 ≤ r ∧ r ≤ q + q / 9007199254740992 := by
  have hpos : 0 < q := lt_of_lt_of_le (by norm_num) hlo
  have habs : |q| = q := abs_of_pos hpos
  have h1 : (2 : ℚ) ^ (-1022 : Int) ≤ |q| := by
    rw [habs]
    have hsmall : (2 : ℚ) ^ (-1022 : Int) ≤ 2 ^ (-64 : Int) :=
      zpow_le_zpow_right₀ (by norm_num) (by norm_num)
    have h64 : (2 : ℚ) ^ (-64 : Int) = 1 / 18446744073709551616 := by norm_num
    exact le_trans hsmall (by rw [h64]; exact hlo)
  have h2 : |q| ≤ (2 : ℚ) ^ (1023 : ℕ) := by
    rw [habs]
    have hbig : (2 : ℚ) ^ (64 : ℕ) ≤ 2 ^ (1023 : ℕ) :=
      pow_le_pow_right₀ (by norm_num) (by norm_num)
    have h64 : (2 : ℚ) ^ (64 : ℕ) = 18446744073709551616 := by norm_num
    exact le_trans hhi (by rw [← h64]; exact hbig)
  obtain ⟨r, hr, herr⟩ := round_rel_error q h1 h2
  rw [habs, abs_le] at herr
  have h53 : q * (2 : ℚ) ^ (-53 : Int) = q / 9007199254740992 := by
    rw [show (2 : ℚ) ^ (-53 : Int) = 1 / 9007199254740992 by norm_num]
    ring
  rw [h53] at herr
  exact ⟨r, hr, by linarith [herr.1], by linarith [herr.2]⟩

/-- Value of `500 * zoom_factor` for a finite factor: between the integers around the
exact product. -/
theorem height_value (z : ℚ) (hz : 0 ≤ z) (hH : 500 * z ≤ 2147483647) :
    ∃ r, Double.of_int 500 * Double.finite z = Double.finite r
      ∧ (⌊500 * z⌋ : ℚ) ≤ r ∧ r ≤ (⌈500 * z⌉ : ℚ)
      ∧ static_cast_int_double (Double.finite r) = ⌊r⌋
      ∧ ⌊500 * z⌋ ≤ ⌊r⌋ ∧ ⌊r⌋ ≤ ⌈500 * z⌉ ∧ 0 ≤ ⌊r⌋ ∧ ⌊r⌋ ≤ 2147483647 := by
  have hx0 : (0 : ℚ) ≤ 500 * z := by positivity
  have habs : |500 * z| < (2 : ℚ) ^ (53 : ℕ) := by
    rw [abs_of_nonneg hx0]
    have : (2147483647 : ℚ) < 2 ^ (53 : ℕ) := by norm_num
    linarith
  obtain ⟨r, hr, h1, h2⟩ := double_round_between_ints (500 * z) habs
  have hfloor0 : (0 : Int) ≤ ⌊500 * z⌋ := Int.floor_nonneg.mpr hx0
  have hr0 : (0 : ℚ) ≤ r := le_trans (by exact_mod_cast hfloor0) h1
  have hceil : ⌈500 * z⌉ ≤ 2147483647 := Int.ceil_le.mpr (by exact_mod_cast hH)
  have hfr1 : ⌊500 * z⌋ ≤ ⌊r⌋ := Int.le_floor.mpr h1
  have hfr2 : ⌊r⌋ ≤ ⌈500 * z⌉ := by
    have : (⌊r⌋ : ℚ) ≤ (⌈500 * z⌉ : ℚ) := le_trans (Int.floor_le r) h2
    exact_mod_cast this
  refine ⟨r, ?_, h1, h2, ?_, hfr1, hfr2, by omega, by omega⟩
  · rw [of_int_eq 500 (by norm_num) (by norm_num), mul_finite]
    push_cast
    exact hr
  · show static_cast_int r = ⌊r⌋
    exact static_cast_int_of_nonneg r hr0 (by omega)

/-- Value of `original_width * (new_height / original_height)` for a positive
height: within 2^-51, relatively, of the exact value. -/
theorem width_value (w H h : Int) (hw : 0 < w ∧ w ≤ 2147483647)
    (hH : 0 < H ∧ H ≤ 2147483647) (hh : 0 < h ∧ h ≤ 2147483647) :
    ∃ v, Double.of_int w * (Double.of_int H / Double.of_int h) = Double.finite v
      ∧ 0 ≤ v
      ∧ |v - (w : ℚ) * H / h| ≤ (w : ℚ) * H / h * 2 ^ (-51 : Int) := by
  have hwq : (1 : ℚ) ≤ (w : ℚ) := by exact_mod_cast hw.1
  have hwq2 : (w : ℚ) ≤ 2147483647 := by exact_mod_cast hw.2
  have hHq : (1 : ℚ) ≤ (H : ℚ) := by exact_mod_cast hH.1
  have hHq2 : (H : ℚ) ≤ 2147483647 := by exact_mod_cast hH.2
  have hhq : (1 : ℚ) ≤ (h : ℚ) := by exact_mod_cast hh.1
  have hhq2 : (h : ℚ) ≤ 2147483647 := by exact_mod_cast hh.2
  have hhpos : (0 : ℚ) < (h : ℚ) := by linarith
  have hhne : (h : ℚ) ≠ 0 := ne_of_gt hhpos
  obtain ⟨q, hq⟩ : ∃ q : ℚ, q = (H : ℚ) / h := ⟨_, rfl⟩
  have hqlo : (1 : ℚ) / 2147483647 ≤ q := by
    rw [hq, div_le_div_iff₀ (by norm_num) hhpos]
    linarith
  have hqhi : q ≤ 2147483647 := by
    rw [hq, div_le_iff₀ hhpos]
    nlinarith
  obtain ⟨t, ht, ht1, ht2⟩ := round_rel_error_mid q (by linarith) (by linarith)
  have hp1 : (w : ℚ) * q - (w : ℚ) * q / 9007199254740992 ≤ (w : ℚ) * t := by
    nlinarith [mul_nonneg (by linarith : (0 : ℚ) ≤ (w : ℚ)) (sub_nonneg.mpr ht1)]
  have hp2 : (w : ℚ) * t ≤ (w : ℚ) * q + (w : ℚ) * q / 9007199254740992 := by
    nlinarith [mul_nonneg (by linarith : (0 : ℚ) ≤ (w : ℚ)) (sub_nonneg.mpr ht2)]
  have hElo : (1 : ℚ) / 2147483647 ≤ (w : ℚ) * q := by
    nlinarith [mul_nonneg (by linarith : (0 : ℚ) ≤ (w : ℚ) - 1) (by linarith : (0 : ℚ) ≤ q)]
  have hEhi : (w : ℚ) * q ≤ 2147483647 * 2147483647 := by
    nlinarith [mul_nonneg (by linarith : (0 : ℚ) ≤ 2147483647 - (w : ℚ))
        (by linarith : (0 : ℚ) ≤ q),
      mul_nonneg (by norm_num : (0 : ℚ) ≤ 2147483647)
        (by linarith : (0 : ℚ) ≤ 2147483647 - q)]
  obtain ⟨v, hv, hv1, hv2⟩ := round_rel_error_mid ((w : ℚ) * t) (by linarith) (by linarith)
  refine ⟨v, ?_, by linarith, ?_⟩
  · rw [of_int_eq w (by omega) hw.2, of_int_eq H (by omega) hH.2, of_int_eq h (by omega) hh.2,
      div_finite _ _ hhne, ← hq, ht, mul_finite]
    exact hv
  · have hE : (w : ℚ) * H / h = (w : ℚ) * q := by
      rw [hq]
      ring
    rw [hE, show (2 : ℚ) ^ (-51 : Int) = 1 / 2251799813685248 by norm_num, abs_le]
    constructor <;> linarith

/-- Value of `original_width * (new_height / original_height)` when the height of the
image divides the new height: the exact quotient and product. -/
theorem width_exact (w c h : Int) (hw : 0 < w ∧ w ≤ 2147483647)
    (hc : 0 ≤ c) (hh : 0 < h ∧ h ≤ 2147483647) (hH : h * c ≤ 2147483647)
    (hfit : w * c ≤ 2147483647) :
    Double.of_int w * (Double.of_int (h * c) / Double.of_int h)
      = Double.finite ((w * c : Int) : ℚ) := by
  have hhne : (h : ℚ) ≠ 0 := by
    have : (0 : ℚ) < (h : ℚ) := by exact_mod_cast hh.1
    exact ne_of_gt this
  have hHnn : 0 ≤ h * c := Int.mul_nonneg (le_of_lt hh.1) hc
  have hcle : c ≤ 2147483647 := by nlinarith
  have hquot : ((h * c : Int) : ℚ) / (h : ℚ) = ((c : Int) : ℚ) := by
    push_cast
    field_simp
  have hwc : 0 ≤ w * c := Int.mul_nonneg (le_of_lt hw.1) hc
  rw [of_int_eq w (by omega) hw.2, of_int_eq (h * c) (by omega) hH,
    of_int_eq h (by omega) hh.2, div_finite _ _ hhne, hquot]
  have hcq := of_int_eq c (by omega) hcle
  unfold Double.of_int at hcq
  rw [hcq, mul_finite]
  have hwcq := of_int_eq (w * c) (by omega) hfit
  unfold Double.of_int at hwcq
  rw [← hwcq]
  push_cast
  rfl

theorem resize_image_some (viewer : GIViewer) (p : GdkPixbuf) :
    (viewer.resize_image (some p)).image
      = Shown.scaled p
          (static_cast_int_double
            (Double.of_int p.width
              * (Double.of_int
                    (static_cast_int_double (Double.of_int 500 * viewer.zoom_factor))
                  / Double.of_int p.height)))
          (static_cast_int_double (Double.of_int 500 * viewer.zoom_factor)) := rfl

/-- Requested width for a new height that is an `int`: the truncation of a value
within 2^-51, relatively, of the exact `w * H / h`. -/
theorem width_request (w H h : Int) (hw : 0 < w ∧ w ≤ 2147483647)
    (hH : 0 ≤ H ∧ H ≤ 2147483647) (hh : 0 < h ∧ h ≤ 2147483647)
    (hfit : (w : ℚ) * H / h ≤ 2147483646) :
    ∃ v, Double.of_int w * (Double.of_int H / Double.of_int h) = Double.finite v
      ∧ |v - (w : ℚ) * H / h| ≤ (w : ℚ) * H / h * 2 ^ (-51 : Int)
      ∧ static_cast_int_double (Double.finite v) = ⌊v⌋
      ∧ ⌊(w : ℚ) * H / h⌋ - 1 ≤ ⌊v⌋ ∧ ⌊v⌋ ≤ ⌊(w : ℚ) * H / h⌋ + 1
      ∧ (h ∣ H → ⌊v⌋ = w * (H / h)) := by
  have hhpos : (0 : ℚ) < (h : ℚ) := by exact_mod_cast hh.1
  have hwpos : (0 : ℚ) < (w : ℚ) := by exact_mod_cast hw.1
  have hHnn : (0 : ℚ) ≤ (H : ℚ) := by exact_mod_cast hH.1
  have he0 : (0 : ℚ) ≤ (w : ℚ) * H / h := by positivity
  -- the value, with its error
  have hval : ∃ v, Double.of_int w * (Double.of_int H / Double.of_int h) = Double.finite v
      ∧ 0 ≤ v ∧ |v - (w : ℚ) * H / h| ≤ (w : ℚ) * H / h * 2 ^ (-51 : Int) := by
    rcases eq_or_lt_of_le hH.1 with h0 | hpos
    · subst h0
      have hz := width_exact w 0 h hw (le_refl 0) hh (by omega) (by omega)
      rw [Int.mul_zero] at hz
      refine ⟨0, ?_, le_refl 0, ?_⟩
      · rw [hz]
        norm_num
      · norm_num
    · exact width_value w H h hw ⟨hpos, hH.2⟩ hh
  obtain ⟨v, hv, hv0, herr⟩ := hval
  have h51 : (w : ℚ) * H / h * 2 ^ (-51 : Int) < 1 := by
    rw [show (2 : ℚ) ^ (-51 : Int) = 1 / 2251799813685248 by norm_num]
    linarith
  have herr' := abs_le.mp herr
  have hvhi : v < 2147483647 := by linarith [herr'.2]
  have hfloor : ⌊v⌋ ≤ 2147483647 := by
    have : ⌊v⌋ < 2147483647 := Int.floor_lt.mpr (by exact_mod_cast hvhi)
    omega
  refine ⟨v, hv, herr, ?_, ?_, ?_, ?_⟩
  · show static_cast_int v = ⌊v⌋
    exact static_cast_int_of_nonneg v hv0 hfloor
  · apply Int.le_floor.mpr
    push_cast
    linarith [herr'.1, Int.floor_le ((w : ℚ) * H / h)]
  · have : ⌊v⌋ < ⌊(w : ℚ) * H / h⌋ + 2 := by
      apply Int.floor_lt.mpr
      push_cast
      linarith [herr'.2, Int.lt_floor_add_one ((w : ℚ) * H / h)]
    omega
  · rintro ⟨c, hc⟩
    subst hc
    have hc0 : 0 ≤ c := by
      by_contra hneg
      have : h * c < 0 := Int.mul_neg_of_pos_of_neg hh.1 (not_le.mp hneg)
      omega
    have hquot : (w : ℚ) * ((h * c : Int) : ℚ) / h = ((w * c : Int) : ℚ) := by
      push_cast
      field_simp
      ring
    have hfit' : w * c ≤ 2147483647 := by
      have : ((w * c : Int) : ℚ) ≤ 2147483646 := by
        rw [← hquot]
        exact hfit
      have : w * c ≤ 2147483646 := by exact_mod_cast this
      omega
    have hexact := width_exact w c h hw hc0 hh hH.2 hfit'
    rw [hexact] at hv
    have hveq : v = ((w * c : Int) : ℚ) := (Double.finite.inj hv).symm
    rw [hveq, Int.floor_intCast, Int.mul_ediv_cancel_left c (by omega : h ≠ 0)]

/-- C8 (counterexample): at zoom 1.0 a 1 by 3 image is requested 166 wide, while
rounding 1 * 500 / 3 gives 167, and a 19 by 19 image is requested 499 wide, while
19 * 500 / 19 is 500; at zoom 513/512 the requested height is 500, while rounding
500 * 513 / 512 gives 501. -/
theorem resize_image_round_counterexample :
    (GIViewer.three_files.resize_image (some { width := 1, height := 3 })).image
        = Shown.scaled { width := 1, height := 3 } 166 500
    ∧ round ((1 : ℚ) * 500 / 3) = 167
    ∧ (GIViewer.three_files.resize_image (some { width := 19, height := 19 })).image
        = Shown.scaled { width := 19, height := 19 } 499 500
    ∧ round ((19 : ℚ) * 500 / 19) = 500
    ∧ (∃ new_width,
        (GIViewer.resize_image
            { GIViewer.three_files with zoom_factor := Double.finite (513 / 512) }
            (some { width := 1000, height := 500 })).image
          = Shown.scaled { width := 1000, height := 500 } new_width 500)
    ∧ round ((500 : ℚ) * (513 / 512)) = 501 := by
  have hzoom : GIViewer.three_files.zoom_factor = Double.finite 1 := one_point_zero
  have h500 : static_cast_int_double (Double.of_int 500 * GIViewer.three_files.zoom_factor)
      = 500 := by
    obtain ⟨r, hr, h1, h2, hcast, _⟩ := height_value 1 (by norm_num) (by norm_num)
    rw [hzoom, hr, hcast]
    norm_num at h1 h2
    have hr500 : r = 500 := le_antisymm h2 h1
    rw [hr500]
    norm_num
  refine ⟨?_, ?_, ?_, ?_, ?_, ?_⟩
  · rw [resize_image_some, h500]
    obtain ⟨v, hv, herr, hcast, _⟩ := width_request 1 500 3 (by norm_num) (by norm_num)
      (by norm_num) (by norm_num)
    show Shown.scaled _ (static_cast_int_double
      (Double.of_int 1 * (Double.of_int 500 / Double.of_int 3))) 500 = _
    rw [hv, hcast]
    have hb := abs_le.mp herr
    have hfl : ⌊v⌋ = 166 := by
      rw [Int.floor_eq_iff]
      norm_num at hb ⊢
      constructor <;> linarith [hb.1, hb.2]
    rw [hfl]
  · norm_num [round_eq]
  · rw [resize_image_some, h500]
    show Shown.scaled _ (static_cast_int_double
      (Double.of_int 19 * (Double.of_int 500 / Double.of_int 19))) 500 = _
    have hquot : Double.of_int 500 / Double.of_int 19
        = Double.finite ((7407236229227789 : Int) * 2 ^ ((4 : Int) - 52)) := by
      rw [of_int_eq 500 (by norm_num) (by norm_num), of_int_eq 19 (by norm_num) (by norm_num),
        div_finite _ _ (by norm_num)]
      exact double_round_eq_of_binade _ 4 7407236229227789 (by norm_num) (by norm_num)
        (by norm_num) (by norm_num) (by norm_num) (by norm_num)
    have hprod : Double.of_int 19
          * Double.finite ((7407236229227789 : Int) * 2 ^ ((4 : Int) - 52))
        = Double.finite ((8796093022207999 : Int) * 2 ^ ((8 : Int) - 52)) := by
      rw [of_int_eq 19 (by norm_num) (by norm_num), mul_finite]
      exact double_round_eq_of_binade _ 8 8796093022207999 (by norm_num) (by norm_num)
        (by norm_num) (by norm_num) (by norm_num) (by norm_num)
    rw [hquot, hprod]
    have hcast : static_cast_int_double
        (Double.finite ((8796093022207999 : Int) * 2 ^ ((8 : Int) - 52))) = 499 := by
      show static_cast_int _ = 499
      rw [static_cast_int_of_nonneg _ (by norm_num)]
      · rw [Int.floor_eq_iff]
        norm_num
      · have : ⌊((8796093022207999 : Int) : ℚ) * 2 ^ ((8 : Int) - 52)⌋ = 499 := by
          rw [Int.floor_eq_iff]
          norm_num
        rw [this]
        norm_num
    rw [hcast]
  · norm_num [round_eq]
  · have hheight : static_cast_int_double (Double.of_int 500 * Double.finite (513 / 512))
        = 500 := by
      rw [of_int_eq 500 (by norm_num) (by norm_num), mul_finite,
        double_round_eq_of_binade _ 8 8813272891392000 (by norm_num) (by norm_num)
          (by norm_num) (by norm_num) (by norm_num) (by norm_num)]
      show static_cast_int _ = 500
      have hfl : ⌊((8813272891392000 : Int) : ℚ) * 2 ^ ((8 : Int) - 52)⌋ = 500 := by
        rw [Int.floor_eq_iff]
        norm_num
      rw [static_cast_int_of_nonneg _ (by norm_num) (by rw [hfl]; norm_num), hfl]
    have himage := resize_image_some
      { GIViewer.three_files with zoom_factor := Double.finite (513 / 512) }
      { width := 1000, height := 500 }
    simp only [hheight] at himage
    exact ⟨_, himage⟩
  · norm_num [round_eq]

/-- C8 (amended): for a positive finite zoom factor z and a decoded image of width w
and height h (positive `int`s), with 500 * z and w * (500 * z + 1) / h inside the
`int` range, `resize_image` requests the height `500 * z` computed in `double` with
its fractional part discarded, which is the floor or the ceiling of the exact
500 * z, and the width `w * (height / h)` computed in `double` with its fractional
part discarded, which differs from the floor of the exact w * height / h by at most
one and is exactly w * height / h when h divides the height; the height is 500 at
z = 1 and 1000 at z = 2. -/
theorem resize_image_truncates (viewer : GIViewer) (p : GdkPixbuf) (z : ℚ)
    (hzoom : viewer.zoom_factor = Double.finite z) (hz : 0 < z)
    (hw : 0 < p.width ∧ p.width ≤ 2147483647)
    (hh : 0 < p.height ∧ p.height ≤ 2147483647)
    (hH : 500 * z ≤ 2147483647)
    (hW : (p.width : ℚ) * (500 * z + 1) ≤ 2147483646 * p.height) :
    ∃ (new_width new_height : Int) (r v : ℚ),
      (viewer.resize_image (some p)).image = Shown.scaled p new_width new_height
      ∧ Double.of_int 500 * viewer.zoom_factor = Double.finite r
      ∧ new_height = ⌊r⌋ ∧ (⌊500 * z⌋ : ℚ) ≤ r ∧ r ≤ (⌈500 * z⌉ : ℚ)
      ∧ ⌊500 * z⌋ ≤ new_height ∧ new_height ≤ ⌈500 * z⌉
      ∧ Double.of_int p.width * (Double.of_int new_height / Double.of_int p.height)
          = Double.finite v
      ∧ new_width = ⌊v⌋
      ∧ |v - (p.width : ℚ) * new_height / p.height|
          ≤ (p.width : ℚ) * new_height / p.height * 2 ^ (-51 : Int)
      ∧ ⌊(p.width : ℚ) * new_height / p.height⌋ - 1 ≤ new_width
      ∧ new_width ≤ ⌊(p.width : ℚ) * new_height / p.height⌋ + 1
      ∧ (p.height ∣ new_height → new_width = p.width * (new_height / p.height))
      ∧ (z = 1 → new_height = 500) ∧ (z = 2 → new_height = 1000) := by
  obtain ⟨r, hr, hr1, hr2, hcast, hf1, hf2, hf0, hfmax⟩ := height_value z (le_of_lt hz) hH
  have hheight : static_cast_int_double (Double.of_int 500 * viewer.zoom_factor) = ⌊r⌋ := by
    rw [hzoom, hr, hcast]
  have hhpos : (0 : ℚ) < (p.height : ℚ) := by exact_mod_cast hh.1
  have hwpos : (0 : ℚ) < (p.width : ℚ) := by exact_mod_cast hw.1
  have hHle : ((⌊r⌋ : Int) : ℚ) ≤ 500 * z + 1 := by
    have h1 : ((⌊r⌋ : Int) : ℚ) ≤ (⌈500 * z⌉ : ℚ) := by exact_mod_cast hf2
    linarith [Int.ceil_lt_add_one (500 * z)]
  have hfit : (p.width : ℚ) * ⌊r⌋ / p.height ≤ 2147483646 := by
    rw [div_le_iff₀ hhpos]
    have : (p.width : ℚ) * ⌊r⌋ ≤ (p.width : ℚ) * (500 * z + 1) :=
      mul_le_mul_of_nonneg_left hHle (le_of_lt hwpos)
    linarith
  obtain ⟨v, hv, herr, hvcast, hv1, hv2, hdvd⟩ :=
    width_request p.width ⌊r⌋ p.height hw ⟨hf0, hfmax⟩ hh hfit
  refine ⟨⌊v⌋, ⌊r⌋, r, v, ?_, ?_, rfl, hr1, hr2, hf1, hf2, hv, rfl, herr, hv1, hv2, hdvd,
    ?_, ?_⟩
  · rw [resize_image_some, hheight, hv, hvcast]
  · rw [hzoom, hr]
  · intro h1
    subst h1
    norm_num at hf1 hf2
    omega
  · intro h2
    subst h2
    norm_num at hf1 hf2
    omega

/-- C8 (witness): a 1000 by 500 image at zoom 1.0 is requested at 1000 by 500. -/
theorem resize_image_truncates_witness :
    (GIViewer.three_files.resize_image (some { width := 1000, height := 500 })).image
      = Shown.scaled { width := 1000, height := 500 } 1000 500 := by
  obtain ⟨new_width, new_height, r, v, himage, _, _, _, _, _, _, _, _, _, _, _, hdvd, h1, _⟩ :=
    resize_image_truncates GIViewer.three_files { width := 1000, height := 500 } 1
      one_point_zero (by norm_num) (by norm_num) (by norm_num) (by norm_num) (by norm_num)
  have hheight : new_height = 500 := h1 rfl
  subst hheight
  have hwidth : new_width = 1000 := by
    have := hdvd (dvd_refl _)
    norm_num at this
    exact this
  subst hwidth
  exact himage

/-! ## The zoom steps -/

theorem zoom_in_finite (z : ℚ) :
    Double.finite z * 1.1 = Double.round (z * (2476979795053773 / 2251799813685248)) := by
  rw [one_point_one]
  rfl

theorem zoom_out_finite (z : ℚ) :
    Double.finite z / 1.1 = Double.round (z / (2476979795053773 / 2251799813685248)) := by
  rw [one_point_one, div_finite _ _ (by norm_num)]

theorem zoom_infinite (negative : Bool) :
    Double.infinite negative * 1.1 = Double.infinite negative
    ∧ Double.infinite negative / 1.1 = Double.infinite negative := by
  have hsign : decide ((2476979795053773 / 2251799813685248 : ℚ) < 0) = false :=
    decide_eq_false (by norm_num)
  rw [one_point_one]
  constructor
  · show Double.mul _ _ = _
    simp [Double.mul, hsign]
  · show Double.div _ _ = _
    simp [Double.div, hsign]

/-- Six zoom-out steps followed by six zoom-in steps from the factor 1.0 leave the
factor 1 - 2^-52, the `double` below 1. -/
theorem six_out_six_in :
    Double.finite 1 / 1.1 / 1.1 / 1.1 / 1.1 / 1.1 / 1.1 * 1.1 * 1.1 * 1.1 * 1.1 * 1.1 * 1.1
      = Double.finite (1 - 2 ^ (-52 : Int)) := by
  have h1 : Double.finite 1 / 1.1
      = Double.finite (8188362958855447 / 9007199254740992) := by
    rw [zoom_out_finite, double_round_eq_of_binade _ (-1) 8188362958855447 (by norm_num)
      (by norm_num) (by norm_num) (by norm_num) (by norm_num) (by norm_num)]
    norm_num
  have h2 : Double.finite (8188362958855447 / 9007199254740992) / 1.1
      = Double.finite (232623947694757 / 281474976710656) := by
    rw [zoom_out_finite, double_round_eq_of_binade _ (-1) 7443966326232224 (by norm_num)
      (by norm_num) (by norm_num) (by norm_num) (by norm_num) (by norm_num)]
    norm_num
  have h3 : Double.finite (232623947694757 / 281474976710656) / 1.1
      = Double.finite (6767242114756567 / 9007199254740992) := by
    rw [zoom_out_finite, double_round_eq_of_binade _ (-1) 6767242114756567 (by norm_num)
      (by norm_num) (by norm_num) (by norm_num) (by norm_num) (by norm_num)]
    norm_num
  have h4 : Double.finite (6767242114756567 / 9007199254740992) / 1.1
      = Double.finite (6152038286142333 / 9007199254740992) := by
    rw [zoom_out_finite, double_round_eq_of_binade _ (-1) 6152038286142333 (by norm_num)
      (by norm_num) (by norm_num) (by norm_num) (by norm_num) (by norm_num)]
    norm_num
  have h5 : Double.finite (6152038286142333 / 9007199254740992) / 1.1
      = Double.finite (5592762078311211 / 9007199254740992) := by
    rw [zoom_out_finite, double_round_eq_of_binade _ (-1) 5592762078311211 (by norm_num)
      (by norm_num) (by norm_num) (by norm_num) (by norm_num) (by norm_num)]
    norm_num
  have h6 : Double.finite (5592762078311211 / 9007199254740992) / 1.1
      = Double.finite (1271082290525275 / 2251799813685248) := by
    rw [zoom_out_finite, double_round_eq_of_binade _ (-1) 5084329162101100 (by norm_num)
      (by norm_num) (by norm_num) (by norm_num) (by norm_num) (by norm_num)]
    norm_num
  have h7 : Double.finite (1271082290525275 / 2251799813685248) * 1.1
      = Double.finite (2796381039155605 / 4503599627370496) := by
    rw [zoom_in_finite, double_round_eq_of_binade _ (-1) 5592762078311210 (by norm_num)
      (by norm_num) (by norm_num) (by norm_num) (by norm_num) (by norm_num)]
    norm_num
  have h8 : Double.finite (2796381039155605 / 4503599627370496) * 1.1
      = Double.finite (6152038286142331 / 9007199254740992) := by
    rw [zoom_in_finite, double_round_eq_of_binade _ (-1) 6152038286142331 (by norm_num)
      (by norm_num) (by norm_num) (by norm_num) (by norm_num) (by norm_num)]
    norm_num
  have h9 : Double.finite (6152038286142331 / 9007199254740992) * 1.1
      = Double.finite (6767242114756565 / 9007199254740992) := by
    rw [zoom_in_finite, double_round_eq_of_binade _ (-1) 6767242114756565 (by norm_num)
      (by norm_num) (by norm_num) (by norm_num) (by norm_num) (by norm_num)]
    norm_num
  have h10 : Double.finite (6767242114756565 / 9007199254740992) * 1.1
      = Double.finite (3721983163116111 / 4503599627370496) := by
    rw [zoom_in_finite, double_round_eq_of_binade _ (-1) 7443966326232222 (by norm_num)
      (by norm_num) (by norm_num) (by norm_num) (by norm_num) (by norm_num)]
    norm_num
  have h11 : Double.finite (3721983163116111 / 4503599627370496) * 1.1
      = Double.finite (8188362958855445 / 9007199254740992) := by
    rw [zoom_in_finite, double_round_eq_of_binade _ (-1) 8188362958855445 (by norm_num)
      (by norm_num) (by norm_num) (by norm_num) (by norm_num) (by norm_num)]
    norm_num
  have h12 : Double.finite (8188362958855445 / 9007199254740992) * 1.1
      = Double.finite (4503599627370495 / 4503599627370496) := by
    rw [zoom_in_finite, double_round_eq_of_binade _ (-1) 9007199254740990 (by norm_num)
      (by norm_num) (by norm_num) (by norm_num) (by norm_num) (by norm_num)]
    norm_num
  rw [h1, h2, h3, h4, h5, h6, h7, h8, h9, h10, h11, h12]
  norm_num

/-- Relative error of one rounding of a positive value between two bounds inside the
normal range. -/
theorem round_rel_error_between (q L U : ℚ) (hL : (2 : ℚ) ^ (-1022 : Int) ≤ L)
    (hU : U ≤ (2 : ℚ) ^ (1023 : ℕ)) (h1 : L ≤ q) (h2 : q ≤ U) :
    ∃ r, Double.round q = Double.finite r
      ∧ q - q / 9007199254740992 ≤ r ∧ r ≤ q + q / 9007199254740992 := by
  have hpos : 0 < q := lt_of_lt_of_le (two_zpow_pos _) (le_trans hL h1)
  have habs : |q| = q := abs_of_pos hpos
  obtain ⟨r, hr, herr⟩ := round_rel_error q (by rw [habs]; exact le_trans hL h1)
    (by rw [habs]; exact le_trans h2 hU)
  rw [habs, abs_le] at herr
  have h53 : q * (2 : ℚ) ^ (-53 : Int) = q / 9007199254740992 := by
    rw [show (2 : ℚ) ^ (-53 : Int) = 1 / 9007199254740992 by norm_num]
    ring
  rw [h53] at herr
  exact ⟨r, hr, by linarith [herr.1], by linarith [herr.2]⟩

theorem zoom_range_bounds :
    (2 : ℚ) ^ (-1021 : Int) = 2 * 2 ^ (-1022 : Int)
    ∧ 2 * (2 : ℚ) ^ (1022 : ℕ) = 2 ^ (1023 : ℕ) := by
  constructor
  · rw [show (-1021 : Int) = 1 + -1022 by norm_num, zpow_add₀ (by norm_num : (2 : ℚ) ≠ 0)]
    norm_num
  · rw [show (1023 : ℕ) = 1 + 1022 by norm_num, pow_add]
    norm_num

/-- Zoom in, then out, on a factor between 2^-1021 and 2^1022. -/
theorem in_out_tolerance (z : ℚ) (hlo : (2 : ℚ) ^ (-1021 : Int) ≤ z)
    (hhi : z ≤ (2 : ℚ) ^ (1022 : ℕ)) :
    ∃ z1 z2, Double.finite z * 1.1 = Double.finite z1
      ∧ Double.finite z1 / 1.1 = Double.finite z2
      ∧ |z2 - z| ≤ z * 2 ^ (-51 : Int) := by
  obtain ⟨hL, hU⟩ := zoom_range_bounds
  rw [hL] at hlo
  obtain ⟨L, hLdef⟩ : ∃ L : ℚ, L = 2 ^ (-1022 : Int) := ⟨_, rfl⟩
  rw [← hLdef] at hlo
  have hLL : (2 : ℚ) ^ (-1022 : Int) ≤ L := le_of_eq hLdef.symm
  have hLpos : 0 < L := lt_of_lt_of_le (two_zpow_pos (-1022)) hLL
  clear hLdef hL
  generalize (2 : ℚ) ^ (1022 : ℕ) = U at hhi hU
  obtain ⟨z1, hz1, h1lo, h1hi⟩ := round_rel_error_between
    (z * (2476979795053773 / 2251799813685248)) L (2 * U) hLL (le_of_eq hU)
    (by linarith) (by linarith)
  obtain ⟨z2, hz2, h2lo, h2hi⟩ := round_rel_error_between
    (z1 / (2476979795053773 / 2251799813685248)) L (2 * U) hLL (le_of_eq hU)
    (by linarith) (by linarith)
  refine ⟨z1, z2, ?_, ?_, ?_⟩
  · rw [zoom_in_finite, hz1]
  · rw [zoom_out_finite, hz2]
  · rw [show (2 : ℚ) ^ (-51 : Int) = 1 / 2251799813685248 by norm_num, abs_le]
    constructor <;> linarith

/-- Zoom out, then in, on a factor between 2^-1021 and 2^1022. -/
theorem out_in_tolerance (z : ℚ) (hlo : (2 : ℚ) ^ (-1021 : Int) ≤ z)
    (hhi : z ≤ (2 : ℚ) ^ (1022 : ℕ)) :
    ∃ z1 z2, Double.finite z / 1.1 = Double.finite z1
      ∧ Double.finite z1 * 1.1 = Double.finite z2
      ∧ |z2 - z| ≤ z * 2 ^ (-51 : Int) := by
  obtain ⟨hL, hU⟩ := zoom_range_bounds
  rw [hL] at hlo
  obtain ⟨L, hLdef⟩ : ∃ L : ℚ, L = 2 ^ (-1022 : Int) := ⟨_, rfl⟩
  rw [← hLdef] at hlo
  have hLL : (2 : ℚ) ^ (-1022 : Int) ≤ L := le_of_eq hLdef.symm
  have hLpos : 0 < L := lt_of_lt_of_le (two_zpow_pos (-1022)) hLL
  clear hLdef hL
  generalize (2 : ℚ) ^ (1022 : ℕ) = U at hhi hU
  obtain ⟨z1, hz1, h1lo, h1hi⟩ := round_rel_error_between
    (z / (2476979795053773 / 2251799813685248)) L (2 * U) hLL (le_of_eq hU)
    (by linarith) (by linarith)
  obtain ⟨z2, hz2, h2lo, h2hi⟩ := round_rel_error_between
    (z1 * (2476979795053773 / 2251799813685248)) L (2 * U) hLL (le_of_eq hU)
    (by linarith) (by linarith)
  refine ⟨z1, z2, ?_, ?_, ?_⟩
  · rw [zoom_out_finite, hz1]
  · rw [zoom_in_finite, hz2]
  · rw [show (2 : ℚ) ^ (-51 : Int) = 1 / 2251799813685248 by norm_num, abs_le]
    constructor <;> linarith

theorem crop_of_update (dec : String → Option GdkPixbuf) (viewer w : GIViewer)
    (h : viewer.update_image dec = some w) :
    w.is_cropping = viewer.is_cropping ∧ w.crop_area = viewer.crop_area := by
  obtain ⟨_, shown, hres⟩ := update_image_some dec viewer w h
  subst hres
  exact ⟨rfl, rfl⟩

theorem scroll_up_result (dec : String → Option GdkPixbuf) (viewer : GIViewer)
    (h : viewer.image_files = []
      ∨ to_size_t viewer.current_image_index < viewer.image_files.length) :
    ∃ shown, viewer.on_scroll dec { direction := GdkScrollDirection.UP }
      = some ({ viewer with zoom_factor := viewer.zoom_factor * 1.1, image := shown }, true) := by
  obtain ⟨shown, hs⟩ := scroll_result dec viewer { direction := GdkScrollDirection.UP } h
  exact ⟨shown, by simpa using hs⟩

theorem scroll_down_result (dec : String → Option GdkPixbuf) (viewer : GIViewer)
    (h : viewer.image_files = []
      ∨ to_size_t viewer.current_image_index < viewer.image_files.length) :
    ∃ shown, viewer.on_scroll dec { direction := GdkScrollDirection.DOWN }
      = some ({ viewer with zoom_factor := viewer.zoom_factor / 1.1, image := shown }, true) := by
  obtain ⟨shown, hs⟩ := scroll_result dec viewer { direction := GdkScrollDirection.DOWN } h
  exact ⟨shown, by simpa using hs⟩

/-- One zoom-in step on a finite factor of at least 1: overflow to +infinity, or a
finite factor at least 1.09 times larger, below 2^1024. -/
theorem zoom_in_grows (v : ℚ) (hv : 1 ≤ v) :
    Double.finite v * 1.1 = Double.infinite false
    ∨ ∃ v', Double.finite v * 1.1 = Double.finite v' ∧ v * (109 / 100) ≤ v'
        ∧ v' < (2 : ℚ) ^ (1024 : ℕ) := by
  have hqpos : 0 < v * (2476979795053773 / 2251799813685248) := by positivity
  have hq1 : (1 : ℚ) ≤ v * (2476979795053773 / 2251799813685248) := by linarith
  have hnormal : (2 : ℚ) ^ (-1022 : Int) ≤ |v * (2476979795053773 / 2251799813685248)| := by
    rw [abs_of_pos hqpos]
    have hone : (2 : ℚ) ^ (-1022 : Int) ≤ 2 ^ (0 : Int) :=
      zpow_le_zpow_right₀ (by norm_num) (by norm_num)
    rw [zpow_zero] at hone
    exact le_trans hone hq1
  have herr := candidate_error (v * (2476979795053773 / 2251799813685248))
  have hulp := ulp_le _ hnormal
  rw [abs_of_pos hqpos,
    show (2 : ℚ) ^ (-52 : Int) = 1 / 4503599627370496 by norm_num] at hulp
  rw [zoom_in_finite, round_candidate]
  generalize (round_half_even (v * (2476979795053773 / 2251799813685248)
      / 2 ^ ulp_exponent (v * (2476979795053773 / 2251799813685248))) : ℚ)
      * 2 ^ ulp_exponent (v * (2476979795053773 / 2251799813685248)) = r at herr ⊢
  generalize (2 : ℚ) ^ ulp_exponent (v * (2476979795053773 / 2251799813685248)) = u
    at herr hulp
  have hb := abs_le.mp herr
  by_cases hover : (2 : ℚ) ^ (1024 : ℕ) ≤ |r|
  · left
    rw [if_pos hover]
    simp [not_lt.mpr (le_of_lt hqpos)]
  · right
    rw [if_neg hover]
    refine ⟨r, rfl, by linarith [hb.1], ?_⟩
    exact lt_of_le_of_lt (le_abs_self r) (not_le.mp hover)

/-- Zoom in, then out, just below the overflow: the factor stays at +infinity. -/
theorem zoom_in_out_overflow (z : ℚ)
    (hz : (2 : ℚ) ^ (1024 : ℕ) ≤ z * (2476979795053773 / 2251799813685248)) :
    Double.finite z * 1.1 = Double.infinite false
    ∧ Double.infinite false / 1.1 = Double.infinite false :=
  ⟨by rw [zoom_in_finite, double_round_overflow _ hz], (zoom_infinite false).2⟩

theorem growth_bound (n : ℕ) : (2 : ℚ) ^ n ≤ (109 / 100 : ℚ) ^ (9 * n) := by
  have h9 : (2 : ℚ) ≤ (109 / 100 : ℚ) ^ (9 : ℕ) := by norm_num
  rw [pow_mul]
  exact pow_le_pow_left₀ (by norm_num : (0 : ℚ) ≤ 2) h9 n

/-- Scroll-up events from the constructor's state: either every one of the first
`count` steps stays finite and grows by 1.09 at least, or one of them overflows. -/
theorem scroll_up_reaches_overflow (dec : String → Option GdkPixbuf) (crop : GdkRectangle)
    (count : Nat) :
    (∃ w v, (GIViewer.construct crop).repeat_scroll_up dec count = some w
        ∧ w.image_files = [] ∧ w.zoom_factor = Double.finite v
        ∧ (109 / 100 : ℚ) ^ count ≤ v ∧ v < (2 : ℚ) ^ (1024 : ℕ))
    ∨ (∃ k w v a, k < count ∧ (GIViewer.construct crop).repeat_scroll_up dec k = some w
        ∧ w.zoom_factor = Double.finite v ∧ 1 ≤ v
        ∧ w.on_scroll dec { direction := GdkScrollDirection.UP } = some (a, true)
        ∧ a.image_files = [] ∧ a.zoom_factor = Double.infinite false) := by
  induction count with
  | zero =>
    left
    refine ⟨GIViewer.construct crop, 1, rfl, rfl, one_point_zero, by norm_num, ?_⟩
    exact one_lt_pow₀ (by norm_num) (by norm_num)
  | succ count ih =>
    rcases ih with ⟨w, v, hw, hfiles, hzoom, hgrow, _⟩ | ⟨k, w, v, a, hk, hrest⟩
    · have hv1 : (1 : ℚ) ≤ v :=
        le_trans (one_le_pow₀ (by norm_num : (1 : ℚ) ≤ 109 / 100)) hgrow
      obtain ⟨shown, hs⟩ := scroll_up_result dec w (Or.inl hfiles)
      rcases zoom_in_grows v hv1 with hinf | ⟨v', hfin, hv', hlt⟩
      · right
        refine ⟨count, w, v, _, Nat.lt_succ_self count, hw, hzoom, hv1, hs, hfiles, ?_⟩
        show w.zoom_factor * 1.1 = _
        rw [hzoom, hinf]
      · left
        refine ⟨{ w with zoom_factor := w.zoom_factor * 1.1, image := shown }, v', ?_, hfiles,
          ?_, ?_, hlt⟩
        · show ((GIViewer.construct crop).repeat_scroll_up dec count).bind _ = _
          rw [hw]
          show (w.on_scroll dec { direction := GdkScrollDirection.UP }).map Prod.fst = _
          rw [hs]
          rfl
        · show w.zoom_factor * 1.1 = _
          rw [hzoom, hfin]
        · rw [pow_succ]
          nlinarith [mul_le_mul_of_nonneg_right hgrow (by norm_num : (0 : ℚ) ≤ 109 / 100)]
    · right
      exact ⟨k, w, v, a, Nat.lt_succ_of_lt hk, hrest⟩

/-- C9 (counterexample): from the factor 15 * 2^1020, a positive `double`, a zoom-in
step overflows to +infinity and the zoom-out step leaves +infinity, with the scroll
handler and with the key handler; from the subnormal factor 5 * 2^-1074 a zoom-out
step followed by a zoom-in step gives 6 * 2^-1074; and fewer than 9216 scroll-up
events from the constructor's state reach a finite factor from which a zoom-in step
followed by a zoom-out step ends at +infinity. -/
theorem zoom_overflow_counterexample :
    GIViewer.far_zoomed.zoom_factor = Double.finite (15 * 2 ^ (1020 : ℕ))
    ∧ (∃ a b, GIViewer.far_zoomed.on_scroll sample_decoder
          { direction := GdkScrollDirection.UP } = some (a, true)
        ∧ a.on_scroll sample_decoder { direction := GdkScrollDirection.DOWN } = some (b, true)
        ∧ b.zoom_factor = Double.infinite false)
    ∧ (∃ a b, GIViewer.far_zoomed.on_key_press sample_decoder example_ctrl_plus
          = some (a, true)
        ∧ a.on_key_press sample_decoder example_ctrl_minus = some (b, true)
        ∧ b.zoom_factor = Double.infinite false)
    ∧ GIViewer.near_zero_zoomed.zoom_factor = Double.finite (5 * 2 ^ (-1074 : Int))
    ∧ (∃ a b, GIViewer.near_zero_zoomed.on_scroll sample_decoder
          { direction := GdkScrollDirection.DOWN } = some (a, true)
        ∧ a.on_scroll sample_decoder { direction := GdkScrollDirection.UP } = some (b, true)
        ∧ b.zoom_factor = Double.finite (6 * 2 ^ (-1074 : Int)))
    ∧ (∃ k w v a b, k < 9216
        ∧ (GIViewer.construct { x := 0, y := 0, width := 0, height := 0 }).repeat_scroll_up
            sample_decoder k = some w
        ∧ w.zoom_factor = Double.finite v ∧ 0 < v
        ∧ w.on_scroll sample_decoder { direction := GdkScrollDirection.UP } = some (a, true)
        ∧ a.on_scroll sample_decoder { direction := GdkScrollDirection.DOWN } = some (b, true)
        ∧ b.zoom_factor = Double.infinite false) := by
  have hover : (2 : ℚ) ^ (1024 : ℕ)
      ≤ 15 * 2 ^ (1020 : ℕ) * (2476979795053773 / 2251799813685248) := by
    rw [show (1024 : ℕ) = 4 + 1020 by norm_num, pow_add]
    have hp : (0 : ℚ) < 2 ^ (1020 : ℕ) := pow_pos (by norm_num) 1020
    generalize (2 : ℚ) ^ (1020 : ℕ) = P at hp ⊢
    norm_num
    linarith
  obtain ⟨hin, hout⟩ := zoom_in_out_overflow (15 * 2 ^ (1020 : ℕ)) hover
  have hzoom : GIViewer.far_zoomed.zoom_factor = Double.finite (15 * 2 ^ (1020 : ℕ)) := rfl
  have hfiles : GIViewer.far_zoomed.image_files = [] := rfl
  refine ⟨hzoom, ?_, ?_, rfl, ?_, ?_⟩
  · obtain ⟨s1, h1⟩ := scroll_up_result sample_decoder GIViewer.far_zoomed (Or.inl hfiles)
    obtain ⟨s2, h2⟩ := scroll_down_result sample_decoder
      { GIViewer.far_zoomed with
        zoom_factor := GIViewer.far_zoomed.zoom_factor * 1.1, image := s1 }
      (Or.inl hfiles)
    refine ⟨_, _, h1, h2, ?_⟩
    show GIViewer.far_zoomed.zoom_factor * 1.1 / 1.1 = _
    rw [hzoom, hin, hout]
  · obtain ⟨s1, h1⟩ := key_press_zoom_in sample_decoder GIViewer.far_zoomed
      example_ctrl_plus (Or.inl hfiles) (by decide) (by decide)
    obtain ⟨s2, h2⟩ := key_press_zoom_out sample_decoder
      { GIViewer.far_zoomed with
        zoom_factor := GIViewer.far_zoomed.zoom_factor * 1.1, image := s1 }
      example_ctrl_minus (Or.inl hfiles) (by decide) (by decide)
    refine ⟨_, _, h1, h2, ?_⟩
    show GIViewer.far_zoomed.zoom_factor * 1.1 / 1.1 = _
    rw [hzoom, hin, hout]
  · have hsplit : (2 : ℚ) ^ (-1022 : Int) = 2 ^ (52 : ℕ) * 2 ^ (-1074 : Int) := by
      rw [← zpow_natCast, ← zpow_add₀ (by norm_num : (2 : ℚ) ≠ 0)]
      norm_num
    have hu := two_zpow_pos (-1074)
    have hdown : Double.finite (5 * 2 ^ (-1074 : Int)) / 1.1
        = Double.finite (5 * 2 ^ (-1074 : Int)) := by
      rw [zoom_out_finite, double_round_subnormal _ 5]
      · norm_num
      · positivity
      · rw [hsplit]
        generalize (2 : ℚ) ^ (-1074 : Int) = u at hu ⊢
        norm_num
        linarith
      · generalize (2 : ℚ) ^ (-1074 : Int) = u at hu ⊢
        norm_num
        linarith
      · generalize (2 : ℚ) ^ (-1074 : Int) = u at hu ⊢
        norm_num
        linarith
    have hup : Double.finite (5 * 2 ^ (-1074 : Int)) * 1.1
        = Double.finite (6 * 2 ^ (-1074 : Int)) := by
      rw [zoom_in_finite, double_round_subnormal _ 6]
      · norm_num
      · positivity
      · rw [hsplit]
        generalize (2 : ℚ) ^ (-1074 : Int) = u at hu ⊢
        norm_num
        linarith
      · generalize (2 : ℚ) ^ (-1074 : Int) = u at hu ⊢
        norm_num
        linarith
      · generalize (2 : ℚ) ^ (-1074 : Int) = u at hu ⊢
        norm_num
        linarith
    have hfiles0 : GIViewer.near_zero_zoomed.image_files = [] := rfl
    have hzoom0 : GIViewer.near_zero_zoomed.zoom_factor
        = Double.finite (5 * 2 ^ (-1074 : Int)) := rfl
    obtain ⟨s1, h1⟩ := scroll_down_result sample_decoder GIViewer.near_zero_zoomed
      (Or.inl hfiles0)
    obtain ⟨s2, h2⟩ := scroll_up_result sample_decoder
      { GIViewer.near_zero_zoomed with
        zoom_factor := GIViewer.near_zero_zoomed.zoom_factor / 1.1, image := s1 }
      (Or.inl hfiles0)
    refine ⟨_, _, h1, h2, ?_⟩
    show GIViewer.near_zero_zoomed.zoom_factor / 1.1 * 1.1 = _
    rw [hzoom0, hdown, hup]
  · rcases scroll_up_reaches_overflow sample_decoder
        { x := 0, y := 0, width := 0, height := 0 } (9 * 1024) with
      ⟨w, v, _, _, _, hgrow, hlt⟩ | ⟨k, w, v, a, hk, hw, hzoomw, hv1, hup, hafiles, hainf⟩
    · exact absurd (lt_of_le_of_lt (le_trans (growth_bound 1024) hgrow) hlt) (lt_irrefl _)
    · obtain ⟨s2, h2⟩ := scroll_down_result sample_decoder a (Or.inl hafiles)
      refine ⟨k, w, v, a, _, hk, hw, hzoomw, by linarith, hup, h2, ?_⟩
      show a.zoom_factor / 1.1 = _
      rw [hainf, (zoom_infinite false).2]

/-- C9 (amended): in a state whose index is valid and whose zoom factor z lies
between 2^-1021 and 2^1022, a zoom-in step followed by a zoom-out step, and a
zoom-out step followed by a zoom-in step, complete for the key handler (control
with `+` or `=`, control with `-`) and for the scroll handler (up, down); the steps
multiply and divide the `double` by 1.1, the factor that results is finite and
within z * 2^-51 of z, and list and index are unchanged; the constructor sets the
factor to 1. -/
theorem zoom_in_out_within_tolerance (dec : String → Option GdkPixbuf) (viewer : GIViewer)
    (z : ℚ) (key_in key_out : GdkEventKey)
    (hinv : viewer.index_valid)
    (hzoom : viewer.zoom_factor = Double.finite z)
    (hlo : (2 : ℚ) ^ (-1021 : Int) ≤ z) (hhi : z ≤ (2 : ℚ) ^ (1022 : ℕ))
    (hctrl_in : key_in.state &&& GDK_CONTROL_MASK ≠ 0)
    (hkey_in : key_in.keyval = GDK_KEY_plus ∨ key_in.keyval = GDK_KEY_equal)
    (hctrl_out : key_out.state &&& GDK_CONTROL_MASK ≠ 0)
    (hkey_out : key_out.keyval = GDK_KEY_minus) :
    (∃ a b z', viewer.on_key_press dec key_in = some (a, true)
      ∧ a.on_key_press dec key_out = some (b, true)
      ∧ a.zoom_factor = viewer.zoom_factor * 1.1 ∧ b.zoom_factor = a.zoom_factor / 1.1
      ∧ b.zoom_factor = Double.finite z' ∧ |z' - z| ≤ z * 2 ^ (-51 : Int)
      ∧ a.image_files = viewer.image_files ∧ b.image_files = viewer.image_files
      ∧ a.current_image_index = viewer.current_image_index
      ∧ b.current_image_index = viewer.current_image_index)
    ∧ (∃ a b z', viewer.on_key_press dec key_out = some (a, true)
      ∧ a.on_key_press dec key_in = some (b, true)
      ∧ a.zoom_factor = viewer.zoom_factor / 1.1 ∧ b.zoom_factor = a.zoom_factor * 1.1
      ∧ b.zoom_factor = Double.finite z' ∧ |z' - z| ≤ z * 2 ^ (-51 : Int)
      ∧ a.image_files = viewer.image_files ∧ b.image_files = viewer.image_files
      ∧ a.current_image_index = viewer.current_image_index
      ∧ b.current_image_index = viewer.current_image_index)
    ∧ (∃ a b z', viewer.on_scroll dec { direction := GdkScrollDirection.UP } = some (a, true)
      ∧ a.on_scroll dec { direction := GdkScrollDirection.DOWN } = some (b, true)
      ∧ a.zoom_factor = viewer.zoom_factor * 1.1 ∧ b.zoom_factor = a.zoom_factor / 1.1
      ∧ b.zoom_factor = Double.finite z' ∧ |z' - z| ≤ z * 2 ^ (-51 : Int)
      ∧ a.image_files = viewer.image_files ∧ b.image_files = viewer.image_files
      ∧ a.current_image_index = viewer.current_image_index
      ∧ b.current_image_index = viewer.current_image_index)
    ∧ (∃ a b z', viewer.on_scroll dec { direction := GdkScrollDirection.DOWN } = some (a, true)
      ∧ a.on_scroll dec { direction := GdkScrollDirection.UP } = some (b, true)
      ∧ a.zoom_factor = viewer.zoom_factor / 1.1 ∧ b.zoom_factor = a.zoom_factor * 1.1
      ∧ b.zoom_factor = Double.finite z' ∧ |z' - z| ≤ z * 2 ^ (-51 : Int)
      ∧ a.image_files = viewer.image_files ∧ b.image_files = viewer.image_files
      ∧ a.current_image_index = viewer.current_image_index
      ∧ b.current_image_index = viewer.current_image_index)
    ∧ (∀ crop, (GIViewer.construct crop).zoom_factor = Double.finite 1) := by
  have hread := readable_of_index_valid viewer hinv
  obtain ⟨u1, u2, hu1, hu2, hutol⟩ := in_out_tolerance z hlo hhi
  obtain ⟨d1, d2, hd1, hd2, hdtol⟩ := out_in_tolerance z hlo hhi
  refine ⟨?_, ?_, ?_, ?_, ?_⟩
  · obtain ⟨s1, h1⟩ := key_press_zoom_in dec viewer key_in hread hctrl_in hkey_in
    obtain ⟨s2, h2⟩ := key_press_zoom_out dec
      { viewer with zoom_factor := viewer.zoom_factor * 1.1, image := s1 }
      key_out hread hctrl_out hkey_out
    refine ⟨_, _, u2, h1, h2, rfl, rfl, ?_, hutol, rfl, rfl, rfl, rfl⟩
    show viewer.zoom_factor * 1.1 / 1.1 = _
    rw [hzoom, hu1, hu2]
  · obtain ⟨s1, h1⟩ := key_press_zoom_out dec viewer key_out hread hctrl_out hkey_out
    obtain ⟨s2, h2⟩ := key_press_zoom_in dec
      { viewer with zoom_factor := viewer.zoom_factor / 1.1, image := s1 }
      key_in hread hctrl_in hkey_in
    refine ⟨_, _, d2, h1, h2, rfl, rfl, ?_, hdtol, rfl, rfl, rfl, rfl⟩
    show viewer.zoom_factor / 1.1 * 1.1 = _
    rw [hzoom, hd1, hd2]
  · obtain ⟨s1, h1⟩ := scroll_up_result dec viewer hread
    obtain ⟨s2, h2⟩ := scroll_down_result dec
      { viewer with zoom_factor := viewer.zoom_factor * 1.1, image := s1 } hread
    refine ⟨_, _, u2, h1, h2, rfl, rfl, ?_, hutol, rfl, rfl, rfl, rfl⟩
    show viewer.zoom_factor * 1.1 / 1.1 = _
    rw [hzoom, hu1, hu2]
  · obtain ⟨s1, h1⟩ := scroll_down_result dec viewer hread
    obtain ⟨s2, h2⟩ := scroll_up_result dec
      { viewer with zoom_factor := viewer.zoom_factor / 1.1, image := s1 } hread
    refine ⟨_, _, d2, h1, h2, rfl, rfl, ?_, hdtol, rfl, rfl, rfl, rfl⟩
    show viewer.zoom_factor / 1.1 * 1.1 = _
    rw [hzoom, hd1, hd2]
  · intro crop
    exact one_point_zero

/-- C9 (witness): three files at the initial factor 1.0, control with `+`, control
with `-`. -/
theorem zoom_in_out_within_tolerance_witness :
    ∃ a b z', GIViewer.three_files.on_key_press sample_decoder example_ctrl_plus
        = some (a, true)
      ∧ a.on_key_press sample_decoder example_ctrl_minus = some (b, true)
      ∧ a.zoom_factor = GIViewer.three_files.zoom_factor * 1.1
      ∧ b.zoom_factor = a.zoom_factor / 1.1
      ∧ b.zoom_factor = Double.finite z' ∧ |z' - 1| ≤ 1 * 2 ^ (-51 : Int)
      ∧ a.image_files = GIViewer.three_files.image_files
      ∧ b.image_files = GIViewer.three_files.image_files
      ∧ a.current_image_index = GIViewer.three_files.current_image_index
      ∧ b.current_image_index = GIViewer.three_files.current_image_index :=
  (zoom_in_out_within_tolerance sample_decoder GIViewer.three_files 1 example_ctrl_plus
    example_ctrl_minus (by decide) one_point_zero
    (zpow_le_one_of_nonpos₀ (by norm_num) (by norm_num))
    (one_le_pow₀ (by norm_num))
    (by decide) (by decide) (by decide) (by decide)).1

/-- C10: while the tracker is idle, a motion event, a button release, and a button
press that is not a primary press with control held leave the viewer as it is, so
the crop state is unchanged; a button press makes the tracker active only when it is
a primary press with control held; the load, next, previous, key and scroll handlers
leave the crop state as it is; and `on_draw` fills the circle exactly when the
tracker is active. -/
theorem idle_crop_state_frame (dec : String → Option GdkPixbuf) (viewer : GIViewer)
    (hidle : viewer.is_cropping = false) :
    (∀ event, (viewer.on_motion_notify event).1 = viewer)
    ∧ (∀ event, (viewer.on_button_release event).1 = viewer)
    ∧ (∀ event : GdkEventButton,
        ¬ (event.button = GDK_BUTTON_PRIMARY ∧ event.state &&& GDK_CONTROL_MASK ≠ 0) →
        (viewer.on_button_press event).1 = viewer)
    ∧ (∀ event : GdkEventButton, (viewer.on_button_press event).1.is_cropping = true →
        event.button = GDK_BUTTON_PRIMARY ∧ event.state &&& GDK_CONTROL_MASK ≠ 0)
    ∧ (∀ directory opendir w, viewer.load_images dec directory opendir = some w →
        w.is_cropping = false ∧ w.crop_area = viewer.crop_area)
    ∧ (∀ w, viewer.on_next_clicked dec = some w →
        w.is_cropping = false ∧ w.crop_area = viewer.crop_area)
    ∧ (∀ w, viewer.on_prev_clicked dec = some w →
        w.is_cropping = false ∧ w.crop_area = viewer.crop_area)
    ∧ (∀ event w b, viewer.on_key_press dec event = some (w, b) →
        w.is_cropping = false ∧ w.crop_area = viewer.crop_area)
    ∧ (∀ event w b, viewer.on_scroll dec event = some (w, b) →
        w.is_cropping = false ∧ w.crop_area = viewer.crop_area)
    ∧ viewer.on_draw = none
    ∧ (∀ any : GIViewer, any.on_draw.isSome = true ↔ any.is_cropping = true) := by
  refine ⟨?_, ?_, ?_, ?_, ?_, ?_, ?_, ?_, ?_, ?_, ?_⟩
  · intro event
    simp [GIViewer.on_motion_notify, hidle]
  · intro event
    simp [GIViewer.on_button_release, hidle]
  · intro event hnot
    unfold GIViewer.on_button_press
    rw [if_neg hnot]
  · intro event hactive
    by_contra hnot
    unfold GIViewer.on_button_press at hactive
    rw [if_neg hnot, hidle] at hactive
    exact Bool.false_ne_true hactive
  · intro directory opendir w hw
    cases opendir with
    | none =>
      rw [load_images_none] at hw
      rw [← Option.some.inj hw]
      exact ⟨hidle, rfl⟩
    | some entries =>
      obtain ⟨shown, hs⟩ := load_images_some dec viewer directory entries
      rw [hs] at hw
      rw [← Option.some.inj hw]
      exact ⟨hidle, rfl⟩
  · intro w hw
    unfold GIViewer.on_next_clicked at hw
    by_cases hzero : viewer.image_files.length = 0
    · simp [hzero] at hw
    · simp only [if_neg hzero] at hw
      have hc := crop_of_update dec _ w hw
      exact ⟨hc.1.trans hidle, hc.2⟩
  · intro w hw
    unfold GIViewer.on_prev_clicked at hw
    by_cases hzero : viewer.image_files.length = 0
    · simp [hzero] at hw
    · simp only [if_neg hzero] at hw
      have hc := crop_of_update dec _ w hw
      exact ⟨hc.1.trans hidle, hc.2⟩
  · intro event w b hw
    unfold GIViewer.on_key_press at hw
    split at hw
    · split at hw
      · obtain ⟨u, hu, hpair⟩ := Option.map_eq_some'.mp hw
        have hc := crop_of_update dec _ u hu
        have hwu : u = w := (Prod.mk.inj hpair).1
        rw [← hwu]
        exact ⟨hc.1.trans hidle, hc.2⟩
      · split at hw
        · obtain ⟨u, hu, hpair⟩ := Option.map_eq_some'.mp hw
          have hc := crop_of_update dec _ u hu
          have hwu : u = w := (Prod.mk.inj hpair).1
          rw [← hwu]
          exact ⟨hc.1.trans hidle, hc.2⟩
        · have hwu : viewer = w := (Prod.mk.inj (Option.some.inj hw)).1
          rw [← hwu]
          exact ⟨hidle, rfl⟩
    · have hwu : viewer = w := (Prod.mk.inj (Option.some.inj hw)).1
      rw [← hwu]
      exact ⟨hidle, rfl⟩
  · intro event w b hw
    unfold GIViewer.on_scroll at hw
    obtain ⟨u, hu, hpair⟩ := Option.map_eq_some'.mp hw
    have hc := crop_of_update dec _ u hu
    have hwu : u = w := (Prod.mk.inj hpair).1
    rw [← hwu]
    refine ⟨hc.1.trans ?_, hc.2.trans ?_⟩
    · split
      · exact hidle
      · split
        · exact hidle
        · exact hidle
    · split
      · rfl
      · split
        · rfl
        · rfl
  · simp [GIViewer.on_draw, hidle]
  · intro any
    unfold GIViewer.on_draw
    cases any.is_cropping <;> simp

/-- C10 (witness): three files, tracker idle. -/
theorem idle_crop_state_frame_witness :
    GIViewer.three_files.is_cropping = false
    ∧ (∀ event, (GIViewer.three_files.on_motion_notify event).1 = GIViewer.three_files)
    ∧ (∀ event, (GIViewer.three_files.on_button_release event).1 = GIViewer.three_files)
    ∧ GIViewer.three_files.on_draw = none :=
  ⟨rfl,
    (idle_crop_state_frame sample_decoder GIViewer.three_files rfl).1,
    (idle_crop_state_frame sample_decoder GIViewer.three_files rfl).2.1,
    (idle_crop_state_frame sample_decoder GIViewer.three_files rfl).2.2.2.2.2.2.2.2.2.1⟩
